import Mathlib

/-!
# SILFunction.cpp

A shallow embedding of `lib/SIL/SILFunction.cpp`: the registration of a
`SILFunction` in its module (`SILFunction::create`, the constructor and the
destructor), the two overloads of `setDeclContext`, the visitor
`MapSILTypeIntoContext` behind `SILFunction::mapTypeIntoContext(SILType)`, and
the node and edge labels of the control flow graph view
(`getCompleteNodeLabel`, `getCaseValueForBB`, `getEdgeSourceLabel`).

Conventions of the embedding.

* A C++ pointer is an `Option Addr`; `none` is `nullptr`.  An object that
  lives on the heap carries its own address in the field `addr`.
* Code that mutates the module takes the module as an argument and returns the
  new module inside an `Outcome`.
* `assert` is compiled only when `NDEBUG` is not defined.  The build mode is the
  Boolean argument `NDEBUG` of the functions that assert.
* The collaborators that live in other files (`ArchetypeBuilder`, the module's
  `TypeConverter`) are arguments.
* An `unsigned` is a natural number below `UINT_SIZE`; its arithmetic is written
  with `% UINT_SIZE`.  A `std::string` is a list of characters, and an operation
  on it that C++ leaves undefined gives `none`.
* A loop that need not end runs for a given number of iterations (fuel).
-/

namespace swift

/-- Address of a heap object. -/
abbrev Addr := Nat

/-! ## Outcome of a call -/

/-- How a call that mutates state `σ` ends: it returns a value, an `assert`
fires (the state is the one at the failing check), or it leaves the contract of
a library container (nothing is known then). -/
inductive Outcome (σ α : Type) where
  | ok (val : α) (state : σ)
  | assertFail (msg : String) (state : σ)
  | undefined
  deriving Repr

/-! ## AST and SIL types -/

/-- The part of `AssociatedTypeDecl` the visitor reads: `getArchetype()`, the
archetype pointer (an archetype is identified by a number). -/
structure AssociatedTypeDecl where
  Name : String
  Archetype : Option Nat
  deriving DecidableEq, Repr

/-- A tuple field: its label (`getName()`) and its type (`getType()`). -/
structure TupleTypeElt (τ : Type) where
  Name : String
  Ty : τ
  deriving DecidableEq, Repr

/-- The enumeration `ParameterConvention`, as its tag. -/
abbrev ParameterConvention := Nat

/-- The enumeration `ResultConvention`, as its tag. -/
abbrev ResultConvention := Nat

/-- A parameter of a lowered function type: type and convention. -/
structure SILParameterInfo (τ : Type) where
  Ty : τ
  Convention : ParameterConvention
  deriving DecidableEq, Repr

/-- The result of a lowered function type: type and convention. -/
structure SILResultInfo (τ : Type) where
  Ty : τ
  Convention : ResultConvention
  deriving DecidableEq, Repr

/-- Canonical types, by `TypeKind`.  The visitor tells apart dependent member
types, tuples and lowered function types; every other kind is `Other` (with its
child types), except the two kinds the file names: generic parameters and
archetypes. -/
inductive CanType where
  | GenericTypeParam (Depth Index : Nat)
  | DependentMember (Base : CanType) (AssocType : AssociatedTypeDecl)
  | Tuple (Fields : List (TupleTypeElt CanType))
  | SILFunction (GenericSig : Option Addr) (ExtInfo : Nat)
      (CalleeConvention : ParameterConvention)
      (Parameters : List (SILParameterInfo CanType)) (Result : SILResultInfo CanType)
  | Archetype (id : Nat)
  | Other (Kind : String) (Children : List CanType)
  deriving Repr

/-- The class `swift::Type`: a canonical type, or a sugared spelling of one. -/
inductive Ty where
  | can (t : CanType)
  | sugared (spelling : String) (canonical : CanType)
  deriving Repr

/-- The method `Type::getCanonicalType()`. -/
def Ty.getCanonicalType : Ty → CanType
  | .can t => t
  | .sugared _ c => c

/-- The method `TupleTypeElt::getWithType(T)`: the same field with type `T`. -/
def TupleTypeElt.getWithType {τ : Type} (elt : TupleTypeElt τ) (T : τ) : TupleTypeElt τ :=
  { elt with Ty := T }

/-- The method `SILParameterInfo::transform(fn)` applied to an already computed
`fn(getType())`: the same convention with the new type. -/
def SILParameterInfo.withType {τ : Type} (p : SILParameterInfo τ) (T : τ) : SILParameterInfo τ :=
  { p with Ty := T }

/-- The method `SILResultInfo::transform(fn)` applied to an already computed
`fn(getType())`: the same convention with the new type. -/
def SILResultInfo.withType {τ : Type} (r : SILResultInfo τ) (T : τ) : SILResultInfo τ :=
  { r with Ty := T }

/-- An abstraction pattern built from an original type (`AbstractionPattern(Type)`);
the type may be null. -/
structure AbstractionPattern where
  OrigType : Option CanType
  deriving Repr

/-- The enumeration `SILValueCategory`. -/
inductive SILValueCategory where
  | Object
  | Address
  deriving DecidableEq, Repr

/-- A SIL type: a canonical type and a value category. -/
structure SILType where
  Ty : CanType
  Category : SILValueCategory
  deriving Repr

/-- The function `SILType::getPrimitiveType(T, category)`. -/
def SILType.getPrimitiveType (T : CanType) (category : SILValueCategory) : SILType :=
  { Ty := T, Category := category }

/-- The method `SILType::getSwiftRValueType()`. -/
def SILType.getSwiftRValueType (t : SILType) : CanType := t.Ty

/-- The method `SILType::getCategory()`. -/
def SILType.getCategory (t : SILType) : SILValueCategory := t.Category

/-- The method `AssociatedTypeDecl::getArchetype()`, as a type pointer. -/
def AssociatedTypeDecl.getArchetype (d : AssociatedTypeDecl) : Option CanType :=
  d.Archetype.map CanType.Archetype

/-! ## External collaborators -/

/-- The static function `ArchetypeBuilder::mapTypeIntoContext(M, genericParams, type)`
(the Context Mapper). -/
structure ArchetypeBuilder where
  mapTypeIntoContext : (M : Addr) → (genericParams : Option Addr) → Ty → Ty

/-- The module's `Types`: `getLoweredType(origType, substType)` (the Lowering
Oracle). -/
structure TypeConverter where
  getLoweredType : AbstractionPattern → CanType → SILType

/-! ## String map -/

/-- An `llvm::StringMap<V>`: the value bound to each key, `none` for a key with
no entry. -/
abbrev StringMap (V : Type) := String → Option V

/-- An `llvm::StringMapEntry<V>`, as returned by `GetOrCreateValue`. -/
structure StringMapEntry (V : Type) where
  key : String
  value : V
  deriving Repr

/-- The method `StringMap::GetOrCreateValue(Key)`: the entry of `Key`, created
with the default value `dflt` when the map has none. -/
def StringMap.GetOrCreateValue {V : Type} (T : StringMap V) (Key : String) (dflt : V) :
    StringMapEntry V × StringMap V :=
  match T Key with
  | some v => ({ key := Key, value := v }, T)
  | none => ({ key := Key, value := dflt }, fun k => if k = Key then some dflt else T k)

/-- The method `StringMapEntry::setValue(V)` on an entry that lives in `T`. -/
def StringMap.setValue {V : Type} (T : StringMap V) (entry : StringMapEntry V) (v : V) :
    StringMap V :=
  fun k => if k = entry.key then some v else T k

/-- The method `StringMap::erase(Key)`. -/
def StringMap.erase {V : Type} (T : StringMap V) (Key : String) : StringMap V :=
  fun k => if k = Key then none else T k

/-! ## Functions and modules -/

/-- A `SILFunction` object.  `addr` is its address; the fields up to `EK` are
the ones the constructor initialises.  `RefCount` is the number of
`function_ref` instructions that refer to the function, and `FunctionRefs`
lists, for every `function_ref` instruction in the blocks of this function, the
address of the function it refers to. -/
structure SILFunction where
  addr : Addr
  Name : String
  LoweredType : CanType
  ContextGenericParams : Option Addr
  Location : Option Nat
  DeclCtx : Option Addr
  DebugScope : Option Addr
  Bare : Bool
  Transparent : Bool
  GlobalInitFlag : Bool
  NoinlineFlag : Nat
  Linkage : Nat
  EK : Nat
  RefCount : Nat
  FunctionRefs : List Addr
  deriving Repr

/-- A `SILModule`: the AST module (`getSwiftModule()`), the type converter
`Types`, the table `FunctionTable` from names to functions, and the list
`functions` of the functions in iteration order. -/
structure SILModule where
  SwiftModule : Addr
  Types : TypeConverter
  FunctionTable : StringMap (Option Addr)
  functions : List SILFunction

/-- The method `ilist::insert(where, New)` with `where` the iterator of the node
at address `pos`: `New` is linked immediately before that node.  `none` when no
node of the list has that address (the iterator is not one of this list). -/
def ilist_insert (l : List SILFunction) (pos : Addr) (New : SILFunction) :
    Option (List SILFunction) :=
  match l with
  | [] => none
  | x :: xs =>
    if x.addr = pos then some (New :: x :: xs)
    else (ilist_insert xs pos New).map (fun r => x :: r)

/-- Whether the pointer `pos` is null or the address of a node of the list `l`:
the pointers that `SILModule::iterator` turns into an iterator of the list. -/
def isNullOrNodeOf (l : List SILFunction) (pos : Option Addr) : Bool :=
  match pos with
  | none => true
  | some a => l.any (fun g => g.addr == a)

/-- The method `ilist::push_back(New)`. -/
def ilist_push_back (l : List SILFunction) (New : SILFunction) : List SILFunction :=
  l ++ [New]

/-- Sequencing of two calls: the second runs in the state the first returned. -/
def Outcome.bind {σ α β : Type} (x : Outcome σ α) (f : α → σ → Outcome σ β) : Outcome σ β :=
  match x with
  | .ok a s => f a s
  | .assertFail msg s => .assertFail msg s
  | .undefined => .undefined

/-- Modelled from the spec: the value of `RefCount` in a function that was just
constructed.  The member and its initial value are declared in SILFunction.h;
the spec makes it the count of the references to the function from
instructions, and no instruction refers to a function that was just
constructed. -/
abbrev SILFunction.ctor.initialRefCount : Nat := 0

/-- Modelled from the spec: the references held by the instructions of a function
that was just constructed.  The block list is declared in SILFunction.h; a
function that was just constructed has no block, so no instruction. -/
abbrev SILFunction.ctor.initialFunctionRefs : List Addr := []

/-- The member initialisers of the constructor `SILFunction::SILFunction`, for
the object at address `this`.  `RefCount` and the block list are not in the
initialiser list and take their initial values. -/
def SILFunction.ctor.init (this : Addr) (Linkage : Nat) (Name : String)
    (LoweredType : CanType) (contextGenericParams : Option Addr) (Loc : Option Nat)
    (isBareSILFunction isTrans : Bool) (isNoinline E : Nat)
    (DebugScope DC : Option Addr) : SILFunction :=
  { addr := this
    Name := Name
    LoweredType := LoweredType
    ContextGenericParams := contextGenericParams
    Location := Loc
    DeclCtx := DC
    DebugScope := DebugScope
    Bare := isBareSILFunction
    Transparent := isTrans
    GlobalInitFlag := false
    NoinlineFlag := isNoinline
    Linkage := Linkage
    EK := E
    RefCount := SILFunction.ctor.initialRefCount
    FunctionRefs := SILFunction.ctor.initialFunctionRefs }

/-- The constructor `SILFunction::SILFunction`, run on the storage at address
`this`: the member initialisers, then the insertion into `Module.functions`,
before `InsertBefore` when it is not null and at the end otherwise. -/
def SILFunction.ctor (this : Addr) (Module : SILModule) (Linkage : Nat) (Name : String)
    (LoweredType : CanType) (contextGenericParams : Option Addr) (Loc : Option Nat)
    (isBareSILFunction isTrans : Bool) (isNoinline E : Nat) (InsertBefore : Option Addr)
    (DebugScope DC : Option Addr) : Outcome SILModule SILFunction :=
  let obj := SILFunction.ctor.init this Linkage Name LoweredType contextGenericParams Loc
    isBareSILFunction isTrans isNoinline E DebugScope DC
  match InsertBefore with
  | some pos =>
    match ilist_insert Module.functions pos obj with
    | some l => .ok obj { Module with functions := l }
    | none => .undefined
  | none => .ok obj { Module with functions := ilist_push_back Module.functions obj }

/-- The first block of `SILFunction::create`: for a non-empty name, get or
create the table entry, assert that it is not bound yet, and take the name from
the entry's key.  Returns the entry pointer and the name to construct with. -/
def SILFunction.create.getEntry (NDEBUG : Bool) (M : SILModule) (name : String) :
    Outcome SILModule (Option (StringMapEntry (Option Addr)) × String) :=
  if name ≠ "" then
    let r := M.FunctionTable.GetOrCreateValue name none
    let M1 : SILModule := { M with FunctionTable := r.2 }
    if NDEBUG = false ∧ r.1.value ≠ none then
      .assertFail "function already exists" M1
    else
      .ok (some r.1, r.1.key) M1
  else
    .ok (none, name) M

/-- The function `SILFunction::create`.  `mem` is the address of the storage
that `new (M)` allocates for the function. -/
def SILFunction.create (NDEBUG : Bool) (mem : Addr) (M : SILModule) (linkage : Nat)
    (name : String) (loweredType : CanType) (contextGenericParams : Option Addr)
    (loc : Option Nat) (isBareSILFunction isTrans : Bool) (isNoinline E : Nat)
    (insertBefore : Option Addr) (debugScope DC : Option Addr) :
    Outcome SILModule SILFunction :=
  (SILFunction.create.getEntry NDEBUG M name).bind fun en M1 =>
    (SILFunction.ctor mem M1 linkage en.2 loweredType contextGenericParams loc
      isBareSILFunction isTrans isNoinline E insertBefore debugScope DC).bind fun fn M2 =>
      match en.1 with
      | some entry =>
        .ok fn { M2 with FunctionTable := M2.FunctionTable.setValue entry (some fn.addr) }
      | none => .ok fn M2

/-- Modelled from the spec: `SILFunction::dropAllReferences()`, declared in
SILFunction.h, releases every reference held by the instructions of the
function.  Each `function_ref` instruction of `this` that refers to a function
lowers the reference count of that function by one (a count does not go below
zero), `this` included when it refers to itself, and `this` holds no reference
afterwards.  Returns the module and the function `this` after the drop. -/
def SILFunction.dropAllReferences (M : SILModule) (this : SILFunction) :
    SILModule × SILFunction :=
  let drop (f : SILFunction) : SILFunction :=
    let g := { f with RefCount := f.RefCount - this.FunctionRefs.count f.addr }
    if f.addr = this.addr then { g with FunctionRefs := [] } else g
  ({ M with functions := M.functions.map drop }, drop this)

/-- The destructor `SILFunction::~SILFunction`, with `M` the module
`getModule()` of the function `this`.  Without `NDEBUG` it drops the references
of the function and asserts `RefCount == 0`; in both builds it then erases the
name from the function table. -/
def SILFunction.dtor (NDEBUG : Bool) (M : SILModule) (this : SILFunction) :
    Outcome SILModule Unit :=
  if NDEBUG = false then
    let r := SILFunction.dropAllReferences M this
    if r.2.RefCount = 0 then
      .ok () { r.1 with FunctionTable := r.1.FunctionTable.erase r.2.Name }
    else
      .assertFail "Function cannot be deleted while function_ref's still exist" r.1
  else
    .ok () { M with FunctionTable := M.FunctionTable.erase this.Name }

/-- The method `SILFunction::mapTypeIntoContext(Type)`; `M` is `getModule()`. -/
def SILFunction.mapTypeIntoContext (AB : ArchetypeBuilder) (M : SILModule)
    (this : SILFunction) (type : Ty) : Ty :=
  AB.mapTypeIntoContext M.SwiftModule this.ContextGenericParams type

/-- The method `MapSILTypeIntoContext::visitDependentMemberType`. -/
def MapSILTypeIntoContext.visitDependentMemberType (AB : ArchetypeBuilder) (M : SILModule)
    (ContextFn : SILFunction) (Base : CanType) (AssocType : AssociatedTypeDecl) : CanType :=
  let t := CanType.DependentMember Base AssocType
  let astTy := (ContextFn.mapTypeIntoContext AB M (Ty.can t)).getCanonicalType
  let origTy : AbstractionPattern := { OrigType := AssocType.getArchetype }
  (M.Types.getLoweredType origTy astTy).getSwiftRValueType

/-- The method `MapSILTypeIntoContext::visitType`. -/
def MapSILTypeIntoContext.visitType (AB : ArchetypeBuilder) (M : SILModule)
    (ContextFn : SILFunction) (t : CanType) : CanType :=
  (ContextFn.mapTypeIntoContext AB M (Ty.can t)).getCanonicalType

mutual
/-- The method `MapSILTypeIntoContext::visit`: the dispatch of `CanTypeVisitor` on
the kind of the type.  The tuple case is `visitTupleType` (the fields are
rebuilt by `visitFields`, the tuple by `TupleType::get`), the lowered function
case is `visitSILFunctionType` (`SILFunctionType::get` on the same signature,
extended info and callee convention), every kind without a visit method of its
own goes to `visitType`. -/
def MapSILTypeIntoContext.visit (AB : ArchetypeBuilder) (M : SILModule)
    (ContextFn : SILFunction) : CanType → CanType
  | .DependentMember Base AssocType =>
    MapSILTypeIntoContext.visitDependentMemberType AB M ContextFn Base AssocType
  | .Tuple Fields => .Tuple (MapSILTypeIntoContext.visitFields AB M ContextFn Fields)
  | .SILFunction GenericSig ExtInfo CalleeConvention Parameters Result =>
    .SILFunction GenericSig ExtInfo CalleeConvention
      (MapSILTypeIntoContext.visitParameters AB M ContextFn Parameters)
      (Result.withType (MapSILTypeIntoContext.visit AB M ContextFn Result.Ty))
  | .GenericTypeParam Depth Index =>
    MapSILTypeIntoContext.visitType AB M ContextFn (.GenericTypeParam Depth Index)
  | .Archetype id => MapSILTypeIntoContext.visitType AB M ContextFn (.Archetype id)
  | .Other Kind Children => MapSILTypeIntoContext.visitType AB M ContextFn (.Other Kind Children)
/-- The loop of `visitTupleType` over `t->getFields()`. -/
def MapSILTypeIntoContext.visitFields (AB : ArchetypeBuilder) (M : SILModule)
    (ContextFn : SILFunction) : List (TupleTypeElt CanType) → List (TupleTypeElt CanType)
  | [] => []
  | elt :: rest =>
    elt.getWithType (MapSILTypeIntoContext.visit AB M ContextFn elt.Ty) ::
      MapSILTypeIntoContext.visitFields AB M ContextFn rest
/-- The loop of `visitSILFunctionType` over `t->getParameters()`. -/
def MapSILTypeIntoContext.visitParameters (AB : ArchetypeBuilder) (M : SILModule)
    (ContextFn : SILFunction) : List (SILParameterInfo CanType) → List (SILParameterInfo CanType)
  | [] => []
  | param :: rest =>
    param.withType (MapSILTypeIntoContext.visit AB M ContextFn param.Ty) ::
      MapSILTypeIntoContext.visitParameters AB M ContextFn rest
end

/-- The method `SILFunction::mapTypeIntoContext(SILType)`. -/
def SILFunction.mapTypeIntoContextSIL (AB : ArchetypeBuilder) (M : SILModule)
    (this : SILFunction) (type : SILType) : SILType :=
  let astTy := MapSILTypeIntoContext.visit AB M this type.getSwiftRValueType
  SILType.getPrimitiveType astTy type.getCategory

/-! ## The declaration context of a function -/

/-- The enumeration `DeclKind`: the four kinds that the switch of
`setDeclContext` names, and every other kind by its tag. -/
inductive DeclKind where
  | Func
  | Constructor
  | Extension
  | Destructor
  | Other (tag : Nat)
  deriving DecidableEq, Repr

/-- A declaration: its address, its kind `getKind()` and the declaration context
`getDeclContext()` that encloses it (a pointer, which may be null). -/
structure Decl where
  addr : Addr
  Kind : DeclKind
  DeclContext : Option Addr
  deriving DecidableEq, Repr

/-- An expression: its address and whether it is an `AbstractClosureExpr`
(the test `isa<AbstractClosureExpr>`). -/
structure Expr where
  addr : Addr
  isAbstractClosureExpr : Bool
  deriving DecidableEq, Repr

/-- The method `SILFunction::setDeclContext(Decl *)`.  A null `D` returns at
once.  The four kinds that are declaration contexts themselves store `D`, every
other kind stores `D->getDeclContext()`; then `assert(DeclCtx)`. -/
def SILFunction.setDeclContext (NDEBUG : Bool) (this : SILFunction) (D : Option Decl) :
    Outcome SILFunction Unit :=
  match D with
  | none => .ok () this
  | some D =>
    let this1 : SILFunction :=
      match D.Kind with
      | .Func => { this with DeclCtx := some D.addr }
      | .Constructor => { this with DeclCtx := some D.addr }
      | .Extension => { this with DeclCtx := some D.addr }
      | .Destructor => { this with DeclCtx := some D.addr }
      | .Other _ => { this with DeclCtx := D.DeclContext }
    if NDEBUG = false ∧ this1.DeclCtx = none then .assertFail "DeclCtx" this1
    else .ok () this1

/-- The cast `dyn_cast_or_null<AbstractClosureExpr>(E)`, as a declaration context
pointer. -/
def dyn_cast_or_null_AbstractClosureExpr (E : Option Expr) : Option Addr :=
  match E with
  | none => none
  | some e => if e.isAbstractClosureExpr then some e.addr else none

/-- The method `SILFunction::setDeclContext(Expr *)`. -/
def SILFunction.setDeclContextExpr (this : SILFunction) (E : Option Expr) : SILFunction :=
  { this with DeclCtx := dyn_cast_or_null_AbstractClosureExpr E }

/-! ## Edge labels of the control flow graph -/

/-- How a computation that may run into `llvm_unreachable` ends. -/
inductive Reached (α : Type) where
  | value (a : α)
  | unreachable (msg : String)
  deriving DecidableEq, Repr

/-- The function `getCaseValueForBB`: the loop over the cases `getCase(0)`, ...,
`getCase(getNumCases() - 1)` of the instruction, each a pair of a value and a
destination block. -/
def getCaseValueForBB {CaseValueTy : Type} (Cases : List (CaseValueTy × Addr)) (BB : Addr) :
    Reached CaseValueTy :=
  match Cases with
  | [] => .unreachable "Error! should never pass in BB that is not a successor"
  | P :: rest => if P.2 ≠ BB then getCaseValueForBB rest BB else .value P.1

/-- The terminators that `getEdgeSourceLabel` tells apart, with their
destination blocks (by address).  The three switches have their cases in order
and a default destination that may be absent (`hasDefault()`); enum cases are
identified by the address of their `EnumElementDecl`. -/
inductive TermInst where
  | CondBranchInst (TrueBB FalseBB : Addr)
  | SwitchIntInst (Cases : List (Int × Addr)) (DefaultBB : Option Addr)
  | SwitchEnumInst (Cases : List (Addr × Addr)) (DefaultBB : Option Addr)
  | SwitchEnumAddrInst (Cases : List (Addr × Addr)) (DefaultBB : Option Addr)
  | DynamicMethodBranchInst (HasMethodBB NoMethodBB : Addr)
  | CheckedCastBranchInst (SuccessBB FailureBB : Addr)
  | CheckedCastAddrBranchInst (SuccessBB FailureBB : Addr)
  | Other (Successors : List Addr)
  deriving DecidableEq, Repr

/-- The successors of a terminator: for a switch the case destinations and,
when it has one, the default destination. -/
def TermInst.getSuccessors : TermInst → List Addr
  | .CondBranchInst t f => [t, f]
  | .SwitchIntInst Cases DefaultBB => Cases.map (fun P => P.2) ++ DefaultBB.toList
  | .SwitchEnumInst Cases DefaultBB => Cases.map (fun P => P.2) ++ DefaultBB.toList
  | .SwitchEnumAddrInst Cases DefaultBB => Cases.map (fun P => P.2) ++ DefaultBB.toList
  | .DynamicMethodBranchInst h n => [h, n]
  | .CheckedCastBranchInst s f => [s, f]
  | .CheckedCastAddrBranchInst s f => [s, f]
  | .Other Successors => Successors

/-- What `getEdgeSourceLabel` writes: a fixed text, the `APInt` of an integer
case, or the full name of the `EnumElementDecl` of an enum case. -/
inductive EdgeLabel where
  | text (s : String)
  | caseValue (I : Int)
  | fullName (E : Addr)
  deriving DecidableEq, Repr

/-- The function `DOTGraphTraits<SILFunction *>::getEdgeSourceLabel`, for the
terminator `Term` of the node and the successor `Succ`. -/
def getEdgeSourceLabel (Term : TermInst) (Succ : Addr) : Reached EdgeLabel :=
  match Term with
  | .CondBranchInst TrueBB _ => .value (.text (if Succ = TrueBB then "T" else "F"))
  | .SwitchIntInst Cases DefaultBB =>
    if DefaultBB = some Succ then .value (.text "def")
    else
      match getCaseValueForBB Cases Succ with
      | .value I => .value (.caseValue I)
      | .unreachable msg => .unreachable msg
  | .SwitchEnumInst Cases _ =>
    match getCaseValueForBB Cases Succ with
    | .value E => .value (.fullName E)
    | .unreachable msg => .unreachable msg
  | .SwitchEnumAddrInst Cases _ =>
    match getCaseValueForBB Cases Succ with
    | .value E => .value (.fullName E)
    | .unreachable msg => .unreachable msg
  | .DynamicMethodBranchInst HasMethodBB _ =>
    .value (.text (if Succ = HasMethodBB then "T" else "F"))
  | .CheckedCastBranchInst SuccessBB _ =>
    .value (.text (if Succ = SuccessBB then "T" else "F"))
  | .CheckedCastAddrBranchInst SuccessBB _ =>
    .value (.text (if Succ = SuccessBB then "T" else "F"))
  | .Other _ => .value (.text "")

/-! ## Counting the invocations of the visitor -/

mutual
/-- The method `MapSILTypeIntoContext::visit` with a log: the same code as
`visit`, which also returns the position of every type node that a call of
`visit` is made on.  A position is the path from the root: the index of the
child taken at each level (tuple field `k` is child `k`; parameter `k` is
child `k` and the result is the child after the parameters). -/
def MapSILTypeIntoContext.visitLogged (AB : ArchetypeBuilder) (M : SILModule)
    (ContextFn : SILFunction) (path : List Nat) : CanType → CanType × List (List Nat)
  | .DependentMember Base AssocType =>
    (MapSILTypeIntoContext.visitDependentMemberType AB M ContextFn Base AssocType, [path])
  | .Tuple Fields =>
    ((CanType.Tuple (MapSILTypeIntoContext.visitFieldsLogged AB M ContextFn path 0 Fields).1),
      path :: (MapSILTypeIntoContext.visitFieldsLogged AB M ContextFn path 0 Fields).2)
  | .SILFunction GenericSig ExtInfo CalleeConvention Parameters Result =>
    ((CanType.SILFunction GenericSig ExtInfo CalleeConvention
        (MapSILTypeIntoContext.visitParametersLogged AB M ContextFn path 0 Parameters).1
        (Result.withType
          (MapSILTypeIntoContext.visitLogged AB M ContextFn (path ++ [Parameters.length])
            Result.Ty).1)),
      path :: ((MapSILTypeIntoContext.visitParametersLogged AB M ContextFn path 0 Parameters).2 ++
        (MapSILTypeIntoContext.visitLogged AB M ContextFn (path ++ [Parameters.length])
          Result.Ty).2))
  | .GenericTypeParam Depth Index =>
    (MapSILTypeIntoContext.visitType AB M ContextFn (.GenericTypeParam Depth Index), [path])
  | .Archetype id => (MapSILTypeIntoContext.visitType AB M ContextFn (.Archetype id), [path])
  | .Other Kind Children =>
    (MapSILTypeIntoContext.visitType AB M ContextFn (.Other Kind Children), [path])
/-- The loop of `visitTupleType` with the log; `k` is the index of the first
field of the list. -/
def MapSILTypeIntoContext.visitFieldsLogged (AB : ArchetypeBuilder) (M : SILModule)
    (ContextFn : SILFunction) (path : List Nat) (k : Nat) :
    List (TupleTypeElt CanType) → List (TupleTypeElt CanType) × List (List Nat)
  | [] => ([], [])
  | elt :: rest =>
    (elt.getWithType
        (MapSILTypeIntoContext.visitLogged AB M ContextFn (path ++ [k]) elt.Ty).1 ::
        (MapSILTypeIntoContext.visitFieldsLogged AB M ContextFn path (k + 1) rest).1,
      (MapSILTypeIntoContext.visitLogged AB M ContextFn (path ++ [k]) elt.Ty).2 ++
        (MapSILTypeIntoContext.visitFieldsLogged AB M ContextFn path (k + 1) rest).2)
/-- The loop of `visitSILFunctionType` with the log; `k` is the index of the
first parameter of the list. -/
def MapSILTypeIntoContext.visitParametersLogged (AB : ArchetypeBuilder) (M : SILModule)
    (ContextFn : SILFunction) (path : List Nat) (k : Nat) :
    List (SILParameterInfo CanType) → List (SILParameterInfo CanType) × List (List Nat)
  | [] => ([], [])
  | param :: rest =>
    (param.withType
        (MapSILTypeIntoContext.visitLogged AB M ContextFn (path ++ [k]) param.Ty).1 ::
        (MapSILTypeIntoContext.visitParametersLogged AB M ContextFn path (k + 1) rest).1,
      (MapSILTypeIntoContext.visitLogged AB M ContextFn (path ++ [k]) param.Ty).2 ++
        (MapSILTypeIntoContext.visitParametersLogged AB M ContextFn path (k + 1) rest).2)
end

mutual
/-- The number of type nodes of a type: the node itself and the nodes of its
child types (the base of a dependent member type, the field types of a tuple,
the parameter and result types of a lowered function type, the children of any
other type). -/
def CanType.numNodes : CanType → Nat
  | .GenericTypeParam _ _ => 1
  | .DependentMember Base _ => 1 + CanType.numNodes Base
  | .Tuple Fields => 1 + CanType.numNodesFields Fields
  | .SILFunction _ _ _ Parameters Result =>
    1 + (CanType.numNodesParameters Parameters + CanType.numNodes Result.Ty)
  | .Archetype _ => 1
  | .Other _ Children => 1 + CanType.numNodesChildren Children
/-- The number of type nodes of the field types. -/
def CanType.numNodesFields : List (TupleTypeElt CanType) → Nat
  | [] => 0
  | elt :: rest => CanType.numNodes elt.Ty + CanType.numNodesFields rest
/-- The number of type nodes of the parameter types. -/
def CanType.numNodesParameters : List (SILParameterInfo CanType) → Nat
  | [] => 0
  | param :: rest => CanType.numNodes param.Ty + CanType.numNodesParameters rest
/-- The number of type nodes of the child types. -/
def CanType.numNodesChildren : List CanType → Nat
  | [] => 0
  | c :: rest => CanType.numNodes c + CanType.numNodesChildren rest
end

/-- The types that one call of `visit` calls `visit` on: the field types of a
tuple, the parameter types and the result type of a lowered function type, and
nothing for every other type. -/
def MapSILTypeIntoContext.recursiveCalls : CanType → List CanType
  | .Tuple Fields => Fields.map (fun elt => elt.Ty)
  | .SILFunction _ _ _ Parameters Result => Parameters.map (fun param => param.Ty) ++ [Result.Ty]
  | _ => []

/-! ## The label of a node of the control flow graph -/

/-- The enumeration `LongLineBehavior`. -/
inductive LongLineBehavior where
  | None
  | Truncate
  | Wrap
  deriving DecidableEq, Repr

/-- The three command line options of the view: `MaxColumns` (an `unsigned`),
`LLBehavior` and `RemoveUseListComments`. -/
structure ViewCFGOptions where
  MaxColumns : Nat
  LLBehavior : LongLineBehavior
  RemoveUseListComments : Bool
  deriving DecidableEq, Repr

/-- The number of values of an `unsigned`. -/
def UINT_SIZE : Nat := 4294967296

/-- The number of values of a `size_t`; `std::string::npos` is the last one. -/
def SIZE_SIZE : Nat := 18446744073709551616

/-- The operator `OutStr[k]` of a `std::string` (a list of characters): the
character at index `k`, the null character at the index that is the length, and
`none` beyond, where the read is not defined. -/
def string_at (s : List Char) (k : Nat) : Option Char :=
  if k < s.length then s[k]?
  else if k = s.length then some (Char.ofNat 0)
  else none

/-- The method `std::string::find(c, pos)`: the index of the first `c` at or
after `pos`, and `npos` when there is none. -/
def string_find (s : List Char) (c : Char) (pos : Nat) : Nat :=
  if c ∈ s.drop pos then pos + (s.drop pos).indexOf c else SIZE_SIZE - 1

/-- The method `std::string::erase(begin() + first, begin() + last)`; `none` when
the two iterators are not a range of the string. -/
def string_erase (s : List Char) (first last : Nat) : Option (List Char) :=
  if first ≤ last ∧ last ≤ s.length then some (s.take first ++ s.drop last) else none

/-- The method `std::string::insert(pos, str)` (and the iterator form for one
character); `none` when `pos` is beyond the end. -/
def string_insert (s : List Char) (pos : Nat) (str : List Char) : Option (List Char) :=
  if pos ≤ s.length then some (s.take pos ++ str ++ s.drop pos) else none

/-- The variables of the loop of `getCompleteNodeLabel`; `i`, `ColNum` and
`LastSpace` are `unsigned`. -/
structure LabelState where
  OutStr : List Char
  i : Nat
  ColNum : Nat
  LastSpace : Nat
  deriving DecidableEq, Repr

/-- The test `RemoveUseListComments && OutStr[i] == '/' && i != (OutStr.size() - 1)
&& OutStr[i + 1] == '/'` of the loop body, with `c` the character `OutStr[i]`. -/
def getCompleteNodeLabel.atComment (o : ViewCFGOptions) (s : LabelState) (c : Char) : Bool :=
  o.RemoveUseListComments && decide (c = '/') &&
    decide (s.i ≠ (s.OutStr.length + SIZE_SIZE - 1) % SIZE_SIZE) &&
    decide (string_at s.OutStr ((s.i + 1) % UINT_SIZE) = some '/')

/-- The chain of `if`s at the head of the loop body of `getCompleteNodeLabel`,
with `c` the character `OutStr[i]`.  `none` when an operation on the string is
not defined. -/
def getCompleteNodeLabel.branch (o : ViewCFGOptions) (s : LabelState) (c : Char) :
    Option LabelState :=
  if c = '\n' then
    (string_insert (s.OutStr.set s.i '\\') (s.i + 1) ['l']).map fun str =>
      { OutStr := str, i := s.i, ColNum := 0, LastSpace := 0 }
  else if getCompleteNodeLabel.atComment o s c = true then
    (string_erase s.OutStr s.i
        (string_find s.OutStr '\n' ((s.i + 1) % UINT_SIZE) % UINT_SIZE)).map fun str =>
      { s with OutStr := str, i := (s.i + UINT_SIZE - 1) % UINT_SIZE }
  else if s.ColNum = o.MaxColumns then
    match o.LLBehavior with
    | .Wrap =>
      (string_insert s.OutStr (if s.LastSpace = 0 then s.i else s.LastSpace)
          ['\\', 'l', '.', '.', '.']).map fun str =>
        { OutStr := str
          i := (s.i + 3) % UINT_SIZE
          ColNum := (s.i + UINT_SIZE - (if s.LastSpace = 0 then s.i else s.LastSpace)) % UINT_SIZE
          LastSpace := 0 }
    | .Truncate =>
      (string_erase s.OutStr s.i
          (string_find s.OutStr '\n' ((s.i + 1) % UINT_SIZE) % UINT_SIZE)).map fun str =>
        { s with OutStr := str, i := (s.i + UINT_SIZE - 1) % UINT_SIZE }
    | .None => some s
  else some { s with ColNum := (s.ColNum + 1) % UINT_SIZE }

/-- One iteration of the loop of `getCompleteNodeLabel`: the chain of `if`s on
`OutStr[i]`, the update of `LastSpace` on the new `OutStr[i]`, and `++i`. -/
def getCompleteNodeLabel.body (o : ViewCFGOptions) (s : LabelState) : Option LabelState :=
  (string_at s.OutStr s.i).bind fun c =>
    (getCompleteNodeLabel.branch o s c).bind fun s1 =>
      (string_at s1.OutStr s1.i).map fun c1 =>
        { s1 with
          LastSpace := if c1 = ' ' then s1.i else s1.LastSpace
          i := (s1.i + 1) % UINT_SIZE }

/-- How a run of the loop ends: with the label, in an operation that is not
defined, or not within the number of iterations that were allowed. -/
inductive LabelResult where
  | done (OutStr : List Char)
  | undefined
  | outOfFuel
  deriving DecidableEq, Repr

/-- The loop `for (unsigned i = 0; i != OutStr.length(); ++i)` of
`getCompleteNodeLabel`, run for at most `fuel` iterations. -/
def getCompleteNodeLabel.loop (o : ViewCFGOptions) : Nat → LabelState → LabelResult
  | fuel, s =>
    if s.i = s.OutStr.length then .done s.OutStr
    else
      match fuel with
      | 0 => .outOfFuel
      | n + 1 =>
        match getCompleteNodeLabel.body o s with
        | none => .undefined
        | some s1 => getCompleteNodeLabel.loop o n s1

/-- The start of `getCompleteNodeLabel`: a newline at the head of the printed
block is erased. -/
def getCompleteNodeLabel.start (Str : List Char) : List Char :=
  if string_at Str 0 = some '\n' then Str.tail else Str

/-- The function `DOTGraphTraits<SILFunction *>::getCompleteNodeLabel`, with `Str`
the text that printing the block gives, run for at most `fuel` iterations of
its loop. -/
def getCompleteNodeLabel (o : ViewCFGOptions) (fuel : Nat) (Str : List Char) : LabelResult :=
  getCompleteNodeLabel.loop o fuel
    { OutStr := getCompleteNodeLabel.start Str, i := 0, ColNum := 0, LastSpace := 0 }

/-- The text with the given lines, each terminated by a newline. -/
def terminatedLines (lines : List (List Char)) : List Char :=
  (lines.map (fun L => L ++ ['\n'])).flatten

/-- The label that truncation gives for the rest `R` of the text, at column
`ColNum` of the current line; `skipping` holds in the part of a line that is
cut.  A newline becomes the marker of two characters, whose `l` takes the first
column of the next line; a line is cut at the comment (when comments are
removed) or at column `MaxColumns`. -/
def truncatedLabel (MaxColumns : Nat) (RemoveUseListComments : Bool) :
    Bool → Nat → List Char → List Char
  | _, _, [] => []
  | skipping, ColNum, c :: R =>
    if c = '\n' then '\\' :: 'l' :: truncatedLabel MaxColumns RemoveUseListComments false 1 R
    else if skipping = true then
      truncatedLabel MaxColumns RemoveUseListComments true ColNum R
    else if RemoveUseListComments = true ∧ c = '/' ∧ R.head? = some '/' then
      truncatedLabel MaxColumns RemoveUseListComments true ColNum R
    else if ColNum = MaxColumns then
      truncatedLabel MaxColumns RemoveUseListComments true ColNum R
    else c :: truncatedLabel MaxColumns RemoveUseListComments false (ColNum + 1) R

/-! ## Placeholders -/

mutual
/-- Whether a type contains a placeholder: a generic parameter or a dependent
member type, anywhere in the type. -/
def CanType.containsPlaceholder : CanType → Bool
  | .GenericTypeParam _ _ => true
  | .DependentMember _ _ => true
  | .Tuple Fields => CanType.fieldsContainPlaceholder Fields
  | .SILFunction _ _ _ Parameters Result =>
    CanType.parametersContainPlaceholder Parameters || CanType.containsPlaceholder Result.Ty
  | .Archetype _ => false
  | .Other _ Children => CanType.childrenContainPlaceholder Children
/-- Whether the type of some tuple field contains a placeholder. -/
def CanType.fieldsContainPlaceholder : List (TupleTypeElt CanType) → Bool
  | [] => false
  | elt :: rest =>
    CanType.containsPlaceholder elt.Ty || CanType.fieldsContainPlaceholder rest
/-- Whether the type of some parameter contains a placeholder. -/
def CanType.parametersContainPlaceholder : List (SILParameterInfo CanType) → Bool
  | [] => false
  | param :: rest =>
    CanType.containsPlaceholder param.Ty || CanType.parametersContainPlaceholder rest
/-- Whether some child type contains a placeholder. -/
def CanType.childrenContainPlaceholder : List CanType → Bool
  | [] => false
  | c :: rest => CanType.containsPlaceholder c || CanType.childrenContainPlaceholder rest
end

/-! ## Concrete values used to instantiate the theorems -/

/-- A Context Mapper that leaves every type as it is. -/
def idMapper : ArchetypeBuilder :=
  { mapTypeIntoContext := fun _ _ t => t }

/-- A Lowering Oracle that lowers every type to an object of the same type. -/
def objectConverter : TypeConverter :=
  { getLoweredType := fun _ t => SILType.getPrimitiveType t SILValueCategory.Object }

/-- A module with no function. -/
def emptyModule : SILModule :=
  { SwiftModule := 0
    Types := objectConverter
    FunctionTable := fun _ => none
    functions := [] }

/-- The nominal type `Int`. -/
def intType : CanType := .Other "Int" []

/-- A lowered function type `(Int) -> Int` with no generic signature. -/
def thinType : CanType :=
  .SILFunction none 0 0 [{ Ty := intType, Convention := 3 }] { Ty := intType, Convention := 1 }

/-- A function object named `foo` at address 1, with reference count `rc` and
the references `refs`. -/
def fooAt (rc : Nat) (refs : List Addr) : SILFunction :=
  { addr := 1
    Name := "foo"
    LoweredType := thinType
    ContextGenericParams := none
    Location := none
    DeclCtx := none
    DebugScope := none
    Bare := false
    Transparent := false
    GlobalInitFlag := false
    NoinlineFlag := 0
    Linkage := 0
    EK := 0
    RefCount := rc
    FunctionRefs := refs }

/-- A module whose table binds `foo` to the function at address 1. -/
def fooModule : SILModule :=
  { SwiftModule := 0
    Types := objectConverter
    FunctionTable := fun k => if k = "foo" then some (some 1) else none
    functions := [fooAt 0 []] }

/-! ## The visitor on tuples and lowered function types -/

theorem visitFields_eq_map (AB : ArchetypeBuilder) (M : SILModule) (ContextFn : SILFunction)
    (Fields : List (TupleTypeElt CanType)) :
    MapSILTypeIntoContext.visitFields AB M ContextFn Fields =
      Fields.map (fun f =>
        ({ Name := f.Name, Ty := MapSILTypeIntoContext.visit AB M ContextFn f.Ty } :
          TupleTypeElt CanType)) := by
  induction Fields with
  | nil => simp [MapSILTypeIntoContext.visitFields]
  | cons elt rest ih =>
    simp [MapSILTypeIntoContext.visitFields, TupleTypeElt.getWithType, ih]

theorem visitParameters_eq_map (AB : ArchetypeBuilder) (M : SILModule)
    (ContextFn : SILFunction) (Parameters : List (SILParameterInfo CanType)) :
    MapSILTypeIntoContext.visitParameters AB M ContextFn Parameters =
      Parameters.map (fun p =>
        ({ Ty := MapSILTypeIntoContext.visit AB M ContextFn p.Ty, Convention := p.Convention } :
          SILParameterInfo CanType)) := by
  induction Parameters with
  | nil => simp [MapSILTypeIntoContext.visitParameters]
  | cons param rest ih =>
    simp [MapSILTypeIntoContext.visitParameters, SILParameterInfo.withType, ih]

/-- C1: the visitor maps a dependent member type `D` to the lowered value type
that the Lowering Oracle gives for the abstraction pattern of the archetype of
the associated type of `D` and the canonical form of the Context Mapper's result
on `D`; mapping the tuple `(x: D)` gives the tuple whose field `x` has exactly
that type. -/
theorem C1_dependent_member_lowered (AB : ArchetypeBuilder) (M : SILModule)
    (ContextFn : SILFunction) (Base : CanType) (AssocType : AssociatedTypeDecl) (x : String) :
    MapSILTypeIntoContext.visit AB M ContextFn (.DependentMember Base AssocType) =
        (M.Types.getLoweredType { OrigType := AssocType.getArchetype }
          (AB.mapTypeIntoContext M.SwiftModule ContextFn.ContextGenericParams
            (Ty.can (.DependentMember Base AssocType))).getCanonicalType).getSwiftRValueType ∧
      MapSILTypeIntoContext.visit AB M ContextFn
          (.Tuple [{ Name := x, Ty := .DependentMember Base AssocType }]) =
        .Tuple [{ Name := x,
                  Ty := (M.Types.getLoweredType { OrigType := AssocType.getArchetype }
                    (AB.mapTypeIntoContext M.SwiftModule ContextFn.ContextGenericParams
                      (Ty.can (.DependentMember Base AssocType))).getCanonicalType
                    ).getSwiftRValueType }] := by
  constructor
  · simp [MapSILTypeIntoContext.visit, MapSILTypeIntoContext.visitDependentMemberType,
      SILFunction.mapTypeIntoContext]
  · simp [MapSILTypeIntoContext.visit, MapSILTypeIntoContext.visitFields,
      MapSILTypeIntoContext.visitDependentMemberType, SILFunction.mapTypeIntoContext,
      TupleTypeElt.getWithType]

/-- C5: on a tuple type the visitor returns a tuple with as many fields, in the
same order, where each field keeps its label and has as type the visitor's result on
the type of that field. -/
theorem C5_tuple_fields_mapped (AB : ArchetypeBuilder) (M : SILModule)
    (ContextFn : SILFunction) (Fields : List (TupleTypeElt CanType)) :
    MapSILTypeIntoContext.visit AB M ContextFn (.Tuple Fields) =
        .Tuple (Fields.map (fun f =>
          ({ Name := f.Name, Ty := MapSILTypeIntoContext.visit AB M ContextFn f.Ty } :
            TupleTypeElt CanType))) ∧
      (Fields.map (fun f =>
          ({ Name := f.Name, Ty := MapSILTypeIntoContext.visit AB M ContextFn f.Ty } :
            TupleTypeElt CanType))).length = Fields.length ∧
      (Fields.map (fun f =>
          ({ Name := f.Name, Ty := MapSILTypeIntoContext.visit AB M ContextFn f.Ty } :
            TupleTypeElt CanType))).map (fun f => f.Name) = Fields.map (fun f => f.Name) := by
  refine ⟨?_, ?_, ?_⟩
  · simp [MapSILTypeIntoContext.visit, visitFields_eq_map]
  · simp
  · simp [List.map_map, Function.comp_def]

/-- C6: on a lowered function type the visitor returns a lowered function type
with the same generic signature, extended info and callee convention, whose
parameters are the parameters of the input in order, each with its convention
and with the visitor's result on its type, and whose result has the same
convention and the visitor's result on the result type. -/
theorem C6_function_type_preserved (AB : ArchetypeBuilder) (M : SILModule)
    (ContextFn : SILFunction) (GenericSig : Option Addr) (ExtInfo : Nat)
    (CalleeConvention : ParameterConvention) (Parameters : List (SILParameterInfo CanType))
    (Result : SILResultInfo CanType) :
    MapSILTypeIntoContext.visit AB M ContextFn
        (.SILFunction GenericSig ExtInfo CalleeConvention Parameters Result) =
      .SILFunction GenericSig ExtInfo CalleeConvention
        (Parameters.map (fun p =>
          ({ Ty := MapSILTypeIntoContext.visit AB M ContextFn p.Ty, Convention := p.Convention } :
            SILParameterInfo CanType)))
        { Ty := MapSILTypeIntoContext.visit AB M ContextFn Result.Ty,
          Convention := Result.Convention } ∧
      (Parameters.map (fun p =>
          ({ Ty := MapSILTypeIntoContext.visit AB M ContextFn p.Ty, Convention := p.Convention } :
            SILParameterInfo CanType))).length = Parameters.length ∧
      (Parameters.map (fun p =>
          ({ Ty := MapSILTypeIntoContext.visit AB M ContextFn p.Ty, Convention := p.Convention } :
            SILParameterInfo CanType))).map (fun p => p.Convention) =
        Parameters.map (fun p => p.Convention) := by
  refine ⟨?_, ?_, ?_⟩
  · simp [MapSILTypeIntoContext.visit, visitParameters_eq_map, SILResultInfo.withType]
  · simp
  · simp [List.map_map, Function.comp_def]

/-! ## The ordered function list -/

theorem ilist_insert_of_node (New : SILFunction) (pos : Addr) :
    ∀ l : List SILFunction, l.any (fun g => g.addr == pos) = true →
      ∃ pre A post, l = pre ++ A :: post ∧ A.addr = pos ∧
        ilist_insert l pos New = some (pre ++ New :: A :: post)
  | [], h => by simp at h
  | x :: xs, h => by
    by_cases hx : x.addr = pos
    · exact ⟨[], x, xs, by simp, hx, by simp [ilist_insert, hx]⟩
    · have hxs : xs.any (fun g => g.addr == pos) = true := by
        simpa [List.any_cons, hx] using h
      obtain ⟨pre, A, post, hl, hA, hins⟩ := ilist_insert_of_node New pos xs hxs
      exact ⟨x :: pre, A, post, by simp [hl], hA, by simp [ilist_insert, hx, hins]⟩

theorem ctor_ok_of_node (this : Addr) (sm : Addr) (ty : TypeConverter)
    (fs : List SILFunction) (Linkage : Nat) (Name : String)
    (LoweredType : CanType) (contextGenericParams : Option Addr) (Loc : Option Nat)
    (isBareSILFunction isTrans : Bool) (isNoinline E : Nat) (InsertBefore : Option Addr)
    (DebugScope DC : Option Addr)
    (hpos : isNullOrNodeOf fs InsertBefore = true) :
    ∃ l, (∀ T : StringMap (Option Addr),
        SILFunction.ctor this (SILModule.mk sm ty T fs) Linkage Name LoweredType
          contextGenericParams Loc isBareSILFunction isTrans isNoinline E InsertBefore
          DebugScope DC =
        .ok (SILFunction.ctor.init this Linkage Name LoweredType contextGenericParams Loc
            isBareSILFunction isTrans isNoinline E DebugScope DC)
          (SILModule.mk sm ty T l)) ∧
      l.Perm (SILFunction.ctor.init this Linkage Name LoweredType contextGenericParams Loc
          isBareSILFunction isTrans isNoinline E DebugScope DC :: fs) := by
  cases InsertBefore with
  | none =>
    exact ⟨ilist_push_back fs (SILFunction.ctor.init this Linkage Name LoweredType
      contextGenericParams Loc isBareSILFunction isTrans isNoinline E DebugScope DC),
      fun _ => rfl, List.perm_append_singleton _ _⟩
  | some a =>
    obtain ⟨pre, A, post, hl, _, hins⟩ := ilist_insert_of_node
      (SILFunction.ctor.init this Linkage Name LoweredType contextGenericParams Loc
        isBareSILFunction isTrans isNoinline E DebugScope DC) a fs hpos
    refine ⟨pre ++ SILFunction.ctor.init this Linkage Name LoweredType contextGenericParams Loc
      isBareSILFunction isTrans isNoinline E DebugScope DC :: A :: post, ?_, ?_⟩
    · intro T
      simp [SILFunction.ctor, hins]
    · rw [hl]
      exact List.perm_middle

/-! ## Creation -/

/-- The table after a successful `create`: unchanged for the empty name,
otherwise `name` bound to the new function. -/
theorem create_ok_of_no_assert (NDEBUG : Bool) (mem : Addr) (M : SILModule) (linkage : Nat)
    (name : String) (loweredType : CanType) (contextGenericParams : Option Addr)
    (loc : Option Nat) (isBareSILFunction isTrans : Bool) (isNoinline E : Nat)
    (insertBefore : Option Addr) (debugScope DC : Option Addr)
    (hpos : isNullOrNodeOf M.functions insertBefore = true)
    (hfree : name = "" ∨ NDEBUG = true ∨ M.FunctionTable name = none ∨
      M.FunctionTable name = some none) :
    ∃ l, SILFunction.create NDEBUG mem M linkage name loweredType contextGenericParams loc
        isBareSILFunction isTrans isNoinline E insertBefore debugScope DC =
      .ok (SILFunction.ctor.init mem linkage name loweredType contextGenericParams loc
          isBareSILFunction isTrans isNoinline E debugScope DC)
        (SILModule.mk M.SwiftModule M.Types
          (fun k => if name ≠ "" ∧ k = name then some (some mem) else M.FunctionTable k) l) ∧
      l.Perm (SILFunction.ctor.init mem linkage name loweredType contextGenericParams loc
          isBareSILFunction isTrans isNoinline E debugScope DC :: M.functions) ∧
      SILFunction.ctor mem M linkage name loweredType contextGenericParams loc
        isBareSILFunction isTrans isNoinline E insertBefore debugScope DC =
      .ok (SILFunction.ctor.init mem linkage name loweredType contextGenericParams loc
          isBareSILFunction isTrans isNoinline E debugScope DC)
        (SILModule.mk M.SwiftModule M.Types M.FunctionTable l) := by
  cases M with
  | mk sm ty T fs =>
    obtain ⟨l, hctor, hperm⟩ := ctor_ok_of_node mem sm ty fs linkage name loweredType
      contextGenericParams loc isBareSILFunction isTrans isNoinline E insertBefore debugScope DC
      hpos
    refine ⟨l, ?_, hperm, hctor T⟩
    by_cases hname : name = ""
    · subst hname
      simp [SILFunction.create, SILFunction.create.getEntry, Outcome.bind, hctor]
    · have hfree2 : NDEBUG = true ∨ T name = none ∨ T name = some none := by
        rcases hfree with h | h
        · exact absurd h hname
        · exact h
      rcases hfree2 with h | h | h
      · subst h
        cases hT : T name with
        | none =>
          simp [SILFunction.create, SILFunction.create.getEntry, Outcome.bind, hctor, hname,
            StringMap.GetOrCreateValue, hT]
          funext k
          by_cases hk : k = name <;> simp [StringMap.setValue, SILFunction.ctor.init, hk]
        | some v =>
          simp [SILFunction.create, SILFunction.create.getEntry, Outcome.bind, hctor, hname,
            StringMap.GetOrCreateValue, hT]
          funext k
          by_cases hk : k = name <;> simp [StringMap.setValue, SILFunction.ctor.init, hk]
      · simp only [] at h
        simp [SILFunction.create, SILFunction.create.getEntry, Outcome.bind, hctor, hname,
          StringMap.GetOrCreateValue, h]
        funext k
        by_cases hk : k = name <;> simp [StringMap.setValue, SILFunction.ctor.init, hk]
      · simp only [] at h
        simp [SILFunction.create, SILFunction.create.getEntry, Outcome.bind, hctor, hname,
          StringMap.GetOrCreateValue, h]
        funext k
        by_cases hk : k = name <;> simp [StringMap.setValue, SILFunction.ctor.init, hk]

theorem ilist_insert_none_of_no_node (New : SILFunction) (pos : Addr) :
    ∀ l : List SILFunction, l.any (fun g => g.addr == pos) = false →
      ilist_insert l pos New = none
  | [], _ => rfl
  | x :: xs, h => by
    simp only [List.any_cons, Bool.or_eq_false_iff, beq_eq_false_iff_ne] at h
    simp [ilist_insert, h.1, ilist_insert_none_of_no_node New pos xs h.2]

theorem create_not_ok_of_no_node (NDEBUG : Bool) (mem : Addr) (M : SILModule) (linkage : Nat)
    (name : String) (loweredType : CanType) (contextGenericParams : Option Addr)
    (loc : Option Nat) (isBareSILFunction isTrans : Bool) (isNoinline E : Nat)
    (insertBefore : Option Addr) (debugScope DC : Option Addr)
    (hpos : isNullOrNodeOf M.functions insertBefore = false) (F : SILFunction) (M' : SILModule) :
    SILFunction.create NDEBUG mem M linkage name loweredType contextGenericParams loc
      isBareSILFunction isTrans isNoinline E insertBefore debugScope DC ≠ .ok F M' := by
  cases insertBefore with
  | none => simp [isNullOrNodeOf] at hpos
  | some a =>
    simp only [isNullOrNodeOf] at hpos
    have hctor : ∀ (T : StringMap (Option Addr)) (nm : String),
        SILFunction.ctor mem { M with FunctionTable := T } linkage nm loweredType
          contextGenericParams loc isBareSILFunction isTrans isNoinline E (some a)
          debugScope DC = .undefined := by
      intro T nm
      simp [SILFunction.ctor, ilist_insert_none_of_no_node _ a M.functions hpos]
    have hM : M = { M with FunctionTable := M.FunctionTable } := rfl
    by_cases hname : name = ""
    · subst hname
      rw [hM]
      simp [SILFunction.create, SILFunction.create.getEntry, Outcome.bind, hctor]
    · by_cases hfire : NDEBUG = false ∧
          (M.FunctionTable.GetOrCreateValue name none).1.value ≠ none
      · simp [SILFunction.create, SILFunction.create.getEntry, Outcome.bind, hname, hfire]
      · simp [SILFunction.create, SILFunction.create.getEntry, Outcome.bind, hname, hfire,
          hctor]

/-- A `create` that returns had a null or in-list `insertBefore` and did not
find the name bound (or ran without assertions). -/
theorem create_ok_inv (NDEBUG : Bool) (mem : Addr) (M : SILModule) (linkage : Nat)
    (name : String) (loweredType : CanType) (contextGenericParams : Option Addr)
    (loc : Option Nat) (isBareSILFunction isTrans : Bool) (isNoinline E : Nat)
    (insertBefore : Option Addr) (debugScope DC : Option Addr)
    (F : SILFunction) (M' : SILModule)
    (hok : SILFunction.create NDEBUG mem M linkage name loweredType contextGenericParams loc
      isBareSILFunction isTrans isNoinline E insertBefore debugScope DC = .ok F M') :
    isNullOrNodeOf M.functions insertBefore = true ∧
      (name = "" ∨ NDEBUG = true ∨ M.FunctionTable name = none ∨
        M.FunctionTable name = some none) := by
  constructor
  · cases hpos : isNullOrNodeOf M.functions insertBefore with
    | false =>
      exact absurd hok (create_not_ok_of_no_node NDEBUG mem M linkage name loweredType
        contextGenericParams loc isBareSILFunction isTrans isNoinline E insertBefore
        debugScope DC hpos F M')
    | true => rfl
  · by_cases hfree : name = "" ∨ NDEBUG = true ∨ M.FunctionTable name = none ∨
        M.FunctionTable name = some none
    · exact hfree
    · simp only [not_or] at hfree
      obtain ⟨hname, hnd, hnone, hnull⟩ := hfree
      have hnd2 : NDEBUG = false := by
        cases NDEBUG with
        | true => exact absurd rfl hnd
        | false => rfl
      subst hnd2
      cases hT : M.FunctionTable name with
      | none => exact absurd hT hnone
      | some v =>
        cases v with
        | none => exact absurd hT hnull
        | some G =>
          simp [SILFunction.create, SILFunction.create.getEntry, Outcome.bind, hname,
            StringMap.GetOrCreateValue, hT] at hok

/-- C2: in a build with assertions, `create` with a non-empty name that the
function table binds to a function `F` stops at the check `function already
exists`; at that point the table still binds the name to `F`, and the table and
the ordered function list are the ones of the module before the call. -/
theorem C2_create_bound_name_asserts (mem : Addr) (M : SILModule) (linkage : Nat)
    (name : String) (loweredType : CanType) (contextGenericParams : Option Addr)
    (loc : Option Nat) (isBareSILFunction isTrans : Bool) (isNoinline E : Nat)
    (insertBefore : Option Addr) (debugScope DC : Option Addr) (F : Addr)
    (hne : name ≠ "") (hbound : M.FunctionTable name = some (some F)) :
    ∃ M', SILFunction.create false mem M linkage name loweredType contextGenericParams loc
        isBareSILFunction isTrans isNoinline E insertBefore debugScope DC =
        .assertFail "function already exists" M' ∧
      M'.FunctionTable name = some (some F) ∧
      M'.FunctionTable = M.FunctionTable ∧
      M'.functions = M.functions := by
  refine ⟨M, ?_, hbound, rfl, rfl⟩
  simp [SILFunction.create, SILFunction.create.getEntry, Outcome.bind, hne,
    StringMap.GetOrCreateValue, hbound]

/-- C2 at the module that binds `foo`: a second `create` of `foo`. -/
theorem C2_create_bound_name_asserts_witness :
    ∃ M', SILFunction.create false 2 fooModule 0 "foo" thinType none none false false 0 0
        none none none = .assertFail "function already exists" M' ∧
      M'.FunctionTable "foo" = some (some 1) ∧
      M'.FunctionTable = fooModule.FunctionTable ∧
      M'.functions = fooModule.functions :=
  C2_create_bound_name_asserts 2 fooModule 0 "foo" thinType none none false false 0 0
    none none none 1 (by decide) (by simp [fooModule])

/-- C3: for a non-empty name with no entry in the function table, whenever
`create` returns a function `F`, the table binds the name to `F`, the name of
`F` is that name, and every other name has the binding it had before; and
`create` does return when `insertBefore` is null or a node of the function
list. -/
theorem C3_create_binds_name (NDEBUG : Bool) (mem : Addr) (M : SILModule) (linkage : Nat)
    (name : String) (loweredType : CanType) (contextGenericParams : Option Addr)
    (loc : Option Nat) (isBareSILFunction isTrans : Bool) (isNoinline E : Nat)
    (insertBefore : Option Addr) (debugScope DC : Option Addr)
    (hne : name ≠ "") (habsent : M.FunctionTable name = none) :
    (∀ (F : SILFunction) (M' : SILModule),
      SILFunction.create NDEBUG mem M linkage name loweredType contextGenericParams loc
        isBareSILFunction isTrans isNoinline E insertBefore debugScope DC = .ok F M' →
      M'.FunctionTable name = some (some F.addr) ∧ F.Name = name ∧
        ∀ other : String, other ≠ name → M'.FunctionTable other = M.FunctionTable other) ∧
    (isNullOrNodeOf M.functions insertBefore = true →
      ∃ (F : SILFunction) (M' : SILModule),
        SILFunction.create NDEBUG mem M linkage name loweredType contextGenericParams loc
          isBareSILFunction isTrans isNoinline E insertBefore debugScope DC = .ok F M') := by
  constructor
  · intro F M' hok
    cases hpos : isNullOrNodeOf M.functions insertBefore with
    | false =>
      exact absurd hok (create_not_ok_of_no_node NDEBUG mem M linkage name loweredType
        contextGenericParams loc isBareSILFunction isTrans isNoinline E insertBefore
        debugScope DC hpos F M')
    | true =>
      obtain ⟨l, hcreate, _, _⟩ := create_ok_of_no_assert NDEBUG mem M linkage name
        loweredType contextGenericParams loc isBareSILFunction isTrans isNoinline E
        insertBefore debugScope DC hpos (Or.inr (Or.inr (Or.inl habsent)))
      rw [hcreate] at hok
      injection hok with hF hM
      subst hF
      subst hM
      refine ⟨by simp [hne, SILFunction.ctor.init], rfl, ?_⟩
      intro other hother
      simp [hother]
  · intro hpos
    obtain ⟨l, hcreate, _, _⟩ := create_ok_of_no_assert NDEBUG mem M linkage name
      loweredType contextGenericParams loc isBareSILFunction isTrans isNoinline E
      insertBefore debugScope DC hpos (Or.inr (Or.inr (Or.inl habsent)))
    exact ⟨_, _, hcreate⟩

/-- C3 at the module that binds `foo`: `create` of `bar` before `foo` returns a
function named `bar` that the table binds to `bar`. -/
theorem C3_create_binds_name_witness :
    ∃ (F : SILFunction) (M' : SILModule),
      SILFunction.create false 2 fooModule 0 "bar" thinType none none false false 0 0
        (some 1) none none = .ok F M' ∧
      M'.FunctionTable "bar" = some (some F.addr) ∧ F.Name = "bar" ∧
      M'.FunctionTable "foo" = fooModule.FunctionTable "foo" := by
  have h := C3_create_binds_name false 2 fooModule 0 "bar" thinType none none false false 0 0
    (some 1) none none (by decide) (by simp [fooModule])
  obtain ⟨F, M', hok⟩ := h.2 (by decide)
  exact ⟨F, M', hok, (h.1 F M' hok).1, (h.1 F M' hok).2.1, (h.1 F M' hok).2.2 "foo" (by decide)⟩

/-- C4: the constructor links the new function `B` into the ordered list of
the module.  With `InsertBefore` the address of a node of the list, the list
splits as `pre ++ A :: post` with `A` at that address, and the new list is
`pre ++ B :: A :: post`: `B` is immediately before `A` and the old functions keep
their order.  With a null `InsertBefore` the new list is the old list followed
by `B`.  A `create` that returns `B` returns the module with the list that the
constructor built for `B`. -/
theorem C4_insert_position (this : Addr) (Module : SILModule) (Linkage : Nat) (Name : String)
    (LoweredType : CanType) (contextGenericParams : Option Addr) (Loc : Option Nat)
    (isBareSILFunction isTrans : Bool) (isNoinline E : Nat) (DebugScope DC : Option Addr) :
    (∀ a : Addr, Module.functions.any (fun g => g.addr == a) = true →
      ∃ B M' pre A post,
        SILFunction.ctor this Module Linkage Name LoweredType contextGenericParams Loc
          isBareSILFunction isTrans isNoinline E (some a) DebugScope DC = .ok B M' ∧
        B.addr = this ∧ A.addr = a ∧
        Module.functions = pre ++ A :: post ∧
        M'.functions = pre ++ B :: A :: post) ∧
    (∃ B M',
        SILFunction.ctor this Module Linkage Name LoweredType contextGenericParams Loc
          isBareSILFunction isTrans isNoinline E none DebugScope DC = .ok B M' ∧
        B.addr = this ∧
        M'.functions = Module.functions ++ [B]) ∧
    (∀ (NDEBUG : Bool) (InsertBefore : Option Addr) (B : SILFunction) (M' : SILModule),
      SILFunction.create NDEBUG this Module Linkage Name LoweredType contextGenericParams Loc
        isBareSILFunction isTrans isNoinline E InsertBefore DebugScope DC = .ok B M' →
      ∃ M2, SILFunction.ctor this Module Linkage Name LoweredType contextGenericParams Loc
          isBareSILFunction isTrans isNoinline E InsertBefore DebugScope DC = .ok B M2 ∧
        M'.functions = M2.functions) := by
  refine ⟨?_, ?_, ?_⟩
  · intro a ha
    obtain ⟨pre, A, post, hl, hA, hins⟩ := ilist_insert_of_node
      (SILFunction.ctor.init this Linkage Name LoweredType contextGenericParams Loc
        isBareSILFunction isTrans isNoinline E DebugScope DC) a Module.functions ha
    have hctor : SILFunction.ctor this Module Linkage Name LoweredType contextGenericParams Loc
        isBareSILFunction isTrans isNoinline E (some a) DebugScope DC =
        .ok (SILFunction.ctor.init this Linkage Name LoweredType contextGenericParams Loc
            isBareSILFunction isTrans isNoinline E DebugScope DC)
          (SILModule.mk Module.SwiftModule Module.Types Module.FunctionTable
            (pre ++ SILFunction.ctor.init this Linkage Name LoweredType contextGenericParams Loc
              isBareSILFunction isTrans isNoinline E DebugScope DC :: A :: post)) := by
      simp [SILFunction.ctor, hins]
    exact ⟨_, _, pre, A, post, hctor, rfl, hA, hl, rfl⟩
  · exact ⟨_, _, rfl, rfl, rfl⟩
  · intro NDEBUG InsertBefore B M' hok
    obtain ⟨hpos, hfree⟩ := create_ok_inv NDEBUG this Module Linkage Name LoweredType
      contextGenericParams Loc isBareSILFunction isTrans isNoinline E InsertBefore DebugScope DC
      B M' hok
    obtain ⟨l, hcreate, _, hctor⟩ := create_ok_of_no_assert NDEBUG this Module Linkage Name
      LoweredType contextGenericParams Loc isBareSILFunction isTrans isNoinline E
      InsertBefore DebugScope DC hpos hfree
    rw [hcreate] at hok
    injection hok with hB hM'
    subst hB
    subst hM'
    exact ⟨_, hctor, rfl⟩

/-- C4 at the module that holds `foo` at address 1: a function constructed at
address 2 before it, and one constructed with no position. -/
theorem C4_insert_position_witness :
    (∃ B M' pre A post,
        SILFunction.ctor 2 fooModule 0 "bar" thinType none none false false 0 0 (some 1)
          none none = .ok B M' ∧
        B.addr = 2 ∧ A.addr = 1 ∧
        fooModule.functions = pre ++ A :: post ∧
        M'.functions = pre ++ B :: A :: post) ∧
    (∃ B M',
        SILFunction.ctor 2 fooModule 0 "bar" thinType none none false false 0 0 none
          none none = .ok B M' ∧
        B.addr = 2 ∧
        M'.functions = fooModule.functions ++ [B]) :=
  ⟨(C4_insert_position 2 fooModule 0 "bar" thinType none none false false 0 0 none none).1 1
      (by decide),
    (C4_insert_position 2 fooModule 0 "bar" thinType none none false false 0 0 none none).2.1⟩

/-! ## Destruction -/

/-- C8: in a build with assertions the destructor drops the references of the
function and then checks the count.  It stops at the check exactly when the
count after the drop is not zero, which is the count before the drop lowered by
the number of references the function holds to itself; in both outcomes the
module is the one after the drop (up to the erased name); and a function whose
count equals the number of its references to itself is destroyed without
stopping at the check. -/
theorem C8_destroy_checks_after_drop (M : SILModule) (this : SILFunction) :
    ((∃ msg s, SILFunction.dtor false M this = .assertFail msg s) ↔
        (SILFunction.dropAllReferences M this).2.RefCount ≠ 0) ∧
      (SILFunction.dropAllReferences M this).2.RefCount =
        this.RefCount - this.FunctionRefs.count this.addr ∧
      (∀ msg s, SILFunction.dtor false M this = .assertFail msg s →
        s = (SILFunction.dropAllReferences M this).1) ∧
      (∀ s, SILFunction.dtor false M this = .ok () s →
        s.functions = (SILFunction.dropAllReferences M this).1.functions) ∧
      (this.RefCount = this.FunctionRefs.count this.addr →
        ∃ s, SILFunction.dtor false M this = .ok () s) := by
  have hcount : (SILFunction.dropAllReferences M this).2.RefCount =
      this.RefCount - this.FunctionRefs.count this.addr := by
    simp [SILFunction.dropAllReferences]
  refine ⟨?_, hcount, ?_, ?_, ?_⟩
  · by_cases h0 : (SILFunction.dropAllReferences M this).2.RefCount = 0
    · simp [SILFunction.dtor, h0]
    · simp [SILFunction.dtor, h0]
  · intro msg s hs
    by_cases h0 : (SILFunction.dropAllReferences M this).2.RefCount = 0
    · simp [SILFunction.dtor, h0] at hs
    · simp [SILFunction.dtor, h0] at hs
      exact hs.2.symm
  · intro s hs
    by_cases h0 : (SILFunction.dropAllReferences M this).2.RefCount = 0
    · simp [SILFunction.dtor, h0] at hs
      rw [← hs]
    · simp [SILFunction.dtor, h0] at hs
  · intro hself
    have h0 : (SILFunction.dropAllReferences M this).2.RefCount = 0 := by
      rw [hcount, hself]
      exact Nat.sub_self _
    simp [SILFunction.dtor, h0]

/-- C8 at a function `foo` that two of its own instructions refer to and that
nothing else refers to. -/
theorem C8_destroy_checks_after_drop_witness :
    (fooAt 2 [1, 1]).RefCount = (fooAt 2 [1, 1]).FunctionRefs.count (fooAt 2 [1, 1]).addr ∧
      ∃ s, SILFunction.dtor false fooModule (fooAt 2 [1, 1]) = .ok () s :=
  ⟨by decide, (C8_destroy_checks_after_drop fooModule (fooAt 2 [1, 1])).2.2.2.2 (by decide)⟩

theorem dtor_ok_of_no_reference (NDEBUG : Bool) (M : SILModule) (this : SILFunction)
    (h : NDEBUG = true ∨ this.RefCount - this.FunctionRefs.count this.addr = 0) :
    ∃ M', SILFunction.dtor NDEBUG M this = .ok () M' ∧
      M'.FunctionTable = M.FunctionTable.erase this.Name := by
  cases NDEBUG with
  | true => exact ⟨{ M with FunctionTable := M.FunctionTable.erase this.Name }, rfl, rfl⟩
  | false =>
    have h0 : this.RefCount - this.FunctionRefs.count this.addr = 0 := by
      rcases h with h | h
      · exact absurd h (by decide)
      · exact h
    have hr : (SILFunction.dropAllReferences M this).2.RefCount = 0 := by
      simpa [SILFunction.dropAllReferences] using h0
    have hn : (SILFunction.dropAllReferences M this).2.Name = this.Name := by
      simp only [SILFunction.dropAllReferences]
      split <;> rfl
    refine ⟨{ (SILFunction.dropAllReferences M this).1 with
      FunctionTable := (SILFunction.dropAllReferences M this).1.FunctionTable.erase
        (SILFunction.dropAllReferences M this).2.Name }, ?_, ?_⟩
    · simp [SILFunction.dtor, hr]
    · simp only [hn]
      rfl

/-- C9: for a non-empty name with no entry in the function table, `create`
returns a function (given a null `insertBefore` or one that is a node of the
list); the destructor of that function then returns and leaves the table equal to
the table before the `create`; and in the module after the destructor `create`
with the same name returns again, for every null or in-list position, a function
that the table binds to the name. -/
theorem C9_create_destroy_create (NDEBUG : Bool) (mem : Addr) (M : SILModule) (linkage : Nat)
    (name : String) (loweredType : CanType) (contextGenericParams : Option Addr)
    (loc : Option Nat) (isBareSILFunction isTrans : Bool) (isNoinline E : Nat)
    (insertBefore : Option Addr) (debugScope DC : Option Addr)
    (hne : name ≠ "") (habsent : M.FunctionTable name = none)
    (hpos : isNullOrNodeOf M.functions insertBefore = true) :
    ∃ (F : SILFunction) (M1 M2 : SILModule),
      SILFunction.create NDEBUG mem M linkage name loweredType contextGenericParams loc
        isBareSILFunction isTrans isNoinline E insertBefore debugScope DC = .ok F M1 ∧
      M1.FunctionTable name = some (some F.addr) ∧
      SILFunction.dtor NDEBUG M1 F = .ok () M2 ∧
      M2.FunctionTable name = none ∧
      M2.FunctionTable = M.FunctionTable ∧
      ∀ (mem2 : Addr) (linkage2 : Nat) (loweredType2 : CanType)
        (contextGenericParams2 : Option Addr) (loc2 : Option Nat)
        (isBareSILFunction2 isTrans2 : Bool) (isNoinline2 E2 : Nat)
        (insertBefore2 : Option Addr) (debugScope2 DC2 : Option Addr),
        isNullOrNodeOf M2.functions insertBefore2 = true →
        ∃ (F2 : SILFunction) (M3 : SILModule),
          SILFunction.create NDEBUG mem2 M2 linkage2 name loweredType2 contextGenericParams2
            loc2 isBareSILFunction2 isTrans2 isNoinline2 E2 insertBefore2 debugScope2 DC2 =
            .ok F2 M3 ∧
          M3.FunctionTable name = some (some F2.addr) ∧ F2.Name = name := by
  obtain ⟨l, hcreate, _, _⟩ := create_ok_of_no_assert NDEBUG mem M linkage name
    loweredType contextGenericParams loc isBareSILFunction isTrans isNoinline E
    insertBefore debugScope DC hpos (Or.inr (Or.inr (Or.inl habsent)))
  obtain ⟨M2, hdtor, htable⟩ := dtor_ok_of_no_reference NDEBUG
    (SILModule.mk M.SwiftModule M.Types
      (fun k => if name ≠ "" ∧ k = name then some (some mem) else M.FunctionTable k) l)
    (SILFunction.ctor.init mem linkage name loweredType contextGenericParams loc
      isBareSILFunction isTrans isNoinline E debugScope DC)
    (Or.inr (by simp [SILFunction.ctor.init]))
  have hback : M2.FunctionTable = M.FunctionTable := by
    rw [htable]
    funext k
    by_cases hk : k = name
    · simp [StringMap.erase, SILFunction.ctor.init, hk, habsent]
    · simp [StringMap.erase, SILFunction.ctor.init, hk]
  refine ⟨_, _, M2, hcreate, by simp [hne, SILFunction.ctor.init], hdtor,
    by rw [hback]; exact habsent, hback, ?_⟩
  intro mem2 linkage2 loweredType2 contextGenericParams2 loc2 isBareSILFunction2 isTrans2
    isNoinline2 E2 insertBefore2 debugScope2 DC2 hpos2
  obtain ⟨l2, hcreate2, _, _⟩ := create_ok_of_no_assert NDEBUG mem2 M2 linkage2 name
    loweredType2 contextGenericParams2 loc2 isBareSILFunction2 isTrans2 isNoinline2 E2
    insertBefore2 debugScope2 DC2 hpos2
    (Or.inr (Or.inr (Or.inl (by rw [hback]; exact habsent))))
  exact ⟨_, _, hcreate2, by simp [hne, SILFunction.ctor.init], rfl⟩

/-- C9 at the empty module and the name `foo`, in a build with assertions: create,
destroy, and create again at the end of the list. -/
theorem C9_create_destroy_create_witness :
    ∃ (F : SILFunction) (M1 M2 : SILModule),
      SILFunction.create false 1 emptyModule 0 "foo" thinType none none false false 0 0
        none none none = .ok F M1 ∧
      SILFunction.dtor false M1 F = .ok () M2 ∧
      M2.FunctionTable "foo" = none ∧
      M2.FunctionTable = emptyModule.FunctionTable ∧
      ∃ (F2 : SILFunction) (M3 : SILModule),
        SILFunction.create false 2 M2 0 "foo" thinType none none false false 0 0
          none none none = .ok F2 M3 ∧
        M3.FunctionTable "foo" = some (some F2.addr) ∧ F2.Name = "foo" := by
  obtain ⟨F, M1, M2, hc, _, hd, hn, ht, hagain⟩ :=
    C9_create_destroy_create false 1 emptyModule 0 "foo" thinType none none false false 0 0
      none none none (by decide) (by simp [emptyModule]) (by decide)
  exact ⟨F, M1, M2, hc, hd, hn, ht,
    hagain 2 0 thinType none none false false 0 0 none none none rfl⟩

/-! ## The empty name -/

/-- Function `create` never gives the empty name an entry: a table without one
has none after a `create` that returns. -/
theorem create_keeps_empty_name_absent (NDEBUG : Bool) (mem : Addr) (M : SILModule)
    (linkage : Nat) (name : String) (loweredType : CanType)
    (contextGenericParams : Option Addr) (loc : Option Nat) (isBareSILFunction isTrans : Bool)
    (isNoinline E : Nat) (insertBefore : Option Addr) (debugScope DC : Option Addr)
    (hM : M.FunctionTable "" = none) (F : SILFunction) (M' : SILModule)
    (hok : SILFunction.create NDEBUG mem M linkage name loweredType contextGenericParams loc
      isBareSILFunction isTrans isNoinline E insertBefore debugScope DC = .ok F M') :
    M'.FunctionTable "" = none := by
  obtain ⟨hpos, hfree⟩ := create_ok_inv NDEBUG mem M linkage name loweredType
    contextGenericParams loc isBareSILFunction isTrans isNoinline E insertBefore debugScope DC
    F M' hok
  obtain ⟨l, hcreate, _, _⟩ := create_ok_of_no_assert NDEBUG mem M linkage name
    loweredType contextGenericParams loc isBareSILFunction isTrans isNoinline E
    insertBefore debugScope DC hpos hfree
  rw [hcreate] at hok
  injection hok with hF hM'
  subst hM'
  by_cases hname : name = ""
  · simp [hname, hM]
  · have hne : ¬ ("" = name) := fun h => hname h.symm
    simp [hne, hM]

/-- The destructor never gives the empty name an entry. -/
theorem dtor_keeps_empty_name_absent (NDEBUG : Bool) (M : SILModule) (this : SILFunction)
    (hM : M.FunctionTable "" = none) (M' : SILModule)
    (hok : SILFunction.dtor NDEBUG M this = .ok () M') :
    M'.FunctionTable "" = none := by
  cases NDEBUG with
  | true =>
    simp [SILFunction.dtor] at hok
    rw [← hok]
    simp [StringMap.erase, hM]
  | false =>
    by_cases h0 : (SILFunction.dropAllReferences M this).2.RefCount = 0
    · simp [SILFunction.dtor, h0] at hok
      rw [← hok]
      simp [StringMap.erase, SILFunction.dropAllReferences, hM]
    · simp [SILFunction.dtor, h0] at hok

/-- C10: `create` with the empty name returns (given a null `insertBefore` or one
that is a node of the list) whatever the number of functions with the empty name
in the module: the function table is unchanged, the new function has the empty
name and is in the ordered list, which has one function more and one function
with the empty name more.  The destructor of a function with the empty name
leaves the table unchanged, whether it returns or stops at its check, when the
table has no entry for the empty name, which no `create` ever makes. -/
theorem C10_empty_name_bypasses_table (NDEBUG : Bool) (mem : Addr) (M : SILModule)
    (linkage : Nat) (loweredType : CanType) (contextGenericParams : Option Addr)
    (loc : Option Nat) (isBareSILFunction isTrans : Bool) (isNoinline E : Nat)
    (insertBefore : Option Addr) (debugScope DC : Option Addr) (k : Nat)
    (hk : M.functions.countP (fun g => g.Name = "") = k) :
    (isNullOrNodeOf M.functions insertBefore = true →
      ∃ (F : SILFunction) (M' : SILModule),
        SILFunction.create NDEBUG mem M linkage "" loweredType contextGenericParams loc
          isBareSILFunction isTrans isNoinline E insertBefore debugScope DC = .ok F M' ∧
        M'.FunctionTable = M.FunctionTable ∧ F.Name = "" ∧ F ∈ M'.functions ∧
        M'.functions.length = M.functions.length + 1 ∧
        M'.functions.countP (fun g => g.Name = "") = k + 1) ∧
    (∀ this : SILFunction, this.Name = "" → M.FunctionTable "" = none →
      (∀ s, SILFunction.dtor NDEBUG M this = .ok () s → s.FunctionTable = M.FunctionTable) ∧
      (∀ msg s, SILFunction.dtor NDEBUG M this = .assertFail msg s →
        s.FunctionTable = M.FunctionTable) ∧
      SILFunction.dtor NDEBUG M this ≠ .undefined) := by
  constructor
  · intro hpos
    obtain ⟨l, hcreate, hperm, _⟩ := create_ok_of_no_assert NDEBUG mem M linkage ""
      loweredType contextGenericParams loc isBareSILFunction isTrans isNoinline E
      insertBefore debugScope DC hpos (Or.inl rfl)
    refine ⟨_, _, hcreate, ?_, rfl, ?_, ?_, ?_⟩
    · funext key
      simp
    · exact hperm.mem_iff.mpr (List.mem_cons_self _ _)
    · simpa using hperm.length_eq
    · have hc := hperm.countP_eq (fun g => decide (g.Name = ""))
      simp only [] at hc
      rw [hc, List.countP_cons, hk]
      simp [SILFunction.ctor.init]
  · intro this hname hM
    have herase : M.FunctionTable.erase "" = M.FunctionTable := by
      funext key
      by_cases hkey : key = ""
      · simp [StringMap.erase, hkey, hM]
      · simp [StringMap.erase, hkey]
    cases NDEBUG with
    | true =>
      refine ⟨?_, ?_, ?_⟩
      · intro s hs
        simp [SILFunction.dtor, hname] at hs
        rw [← hs]
        exact herase
      · intro msg s hs
        simp [SILFunction.dtor] at hs
      · simp [SILFunction.dtor]
    | false =>
      have hn : (SILFunction.dropAllReferences M this).2.Name = "" := by
        simp only [SILFunction.dropAllReferences]
        split <;> exact hname
      have ht : (SILFunction.dropAllReferences M this).1.FunctionTable = M.FunctionTable := rfl
      by_cases h0 : (SILFunction.dropAllReferences M this).2.RefCount = 0
      · refine ⟨?_, ?_, ?_⟩
        · intro s hs
          simp [SILFunction.dtor, h0, hn] at hs
          rw [← hs]
          simpa [ht] using herase
        · intro msg s hs
          simp [SILFunction.dtor, h0] at hs
        · simp [SILFunction.dtor, h0]
      · refine ⟨?_, ?_, ?_⟩
        · intro s hs
          simp [SILFunction.dtor, h0] at hs
        · intro msg s hs
          simp [SILFunction.dtor, h0] at hs
          rw [← hs.2]
          exact ht
        · simp [SILFunction.dtor, h0]

/-- C10 at the module that holds `foo` and has no entry for the empty name: a
`create` with the empty name at the end of the list, and the destructor of a
function with the empty name in a build with assertions. -/
theorem C10_empty_name_bypasses_table_witness :
    (∃ (F : SILFunction) (M' : SILModule),
        SILFunction.create false 2 fooModule 0 "" thinType none none false false 0 0
          none none none = .ok F M' ∧
        M'.FunctionTable = fooModule.FunctionTable ∧ F.Name = "" ∧ F ∈ M'.functions ∧
        M'.functions.length = fooModule.functions.length + 1 ∧
        M'.functions.countP (fun g => g.Name = "") = 0 + 1) ∧
    (∀ s, SILFunction.dtor false fooModule
        (SILFunction.ctor.init 2 0 "" thinType none none false false 0 0 none none) = .ok () s →
      s.FunctionTable = fooModule.FunctionTable) :=
  ⟨(C10_empty_name_bypasses_table false 2 fooModule 0 thinType none none false false 0 0
      none none none 0 (by decide)).1 (by decide),
    ((C10_empty_name_bypasses_table false 2 fooModule 0 thinType none none false false 0 0
      none none none 0 (by decide)).2
      (SILFunction.ctor.init 2 0 "" thinType none none false false 0 0 none none)
      (by decide) (by simp [fooModule])).1⟩

/-! ## Types without placeholders -/

mutual
theorem visit_eq_self_of_no_placeholder (AB : ArchetypeBuilder) (M : SILModule)
    (ContextFn : SILFunction)
    (hmap : ∀ u : CanType, u.containsPlaceholder = false →
      AB.mapTypeIntoContext M.SwiftModule ContextFn.ContextGenericParams (Ty.can u) = Ty.can u) :
    ∀ t : CanType, t.containsPlaceholder = false →
      MapSILTypeIntoContext.visit AB M ContextFn t = t
  | .GenericTypeParam _ _, h => by simp [CanType.containsPlaceholder] at h
  | .DependentMember _ _, h => by simp [CanType.containsPlaceholder] at h
  | .Tuple Fields, h => by
    simp only [CanType.containsPlaceholder] at h
    simp [MapSILTypeIntoContext.visit,
      visitFields_eq_self_of_no_placeholder AB M ContextFn hmap Fields h]
  | .SILFunction _ _ _ Parameters Result, h => by
    simp only [CanType.containsPlaceholder, Bool.or_eq_false_iff] at h
    simp [MapSILTypeIntoContext.visit, SILResultInfo.withType,
      visitParameters_eq_self_of_no_placeholder AB M ContextFn hmap Parameters h.1,
      visit_eq_self_of_no_placeholder AB M ContextFn hmap Result.Ty h.2]
  | .Archetype id, h => by
    simp [MapSILTypeIntoContext.visit, MapSILTypeIntoContext.visitType,
      SILFunction.mapTypeIntoContext, hmap (.Archetype id) h, Ty.getCanonicalType]
  | .Other Kind Children, h => by
    simp [MapSILTypeIntoContext.visit, MapSILTypeIntoContext.visitType,
      SILFunction.mapTypeIntoContext, hmap (.Other Kind Children) h, Ty.getCanonicalType]
theorem visitFields_eq_self_of_no_placeholder (AB : ArchetypeBuilder) (M : SILModule)
    (ContextFn : SILFunction)
    (hmap : ∀ u : CanType, u.containsPlaceholder = false →
      AB.mapTypeIntoContext M.SwiftModule ContextFn.ContextGenericParams (Ty.can u) = Ty.can u) :
    ∀ Fields : List (TupleTypeElt CanType), CanType.fieldsContainPlaceholder Fields = false →
      MapSILTypeIntoContext.visitFields AB M ContextFn Fields = Fields
  | [], _ => by simp [MapSILTypeIntoContext.visitFields]
  | elt :: rest, h => by
    simp only [CanType.fieldsContainPlaceholder, Bool.or_eq_false_iff] at h
    simp [MapSILTypeIntoContext.visitFields, TupleTypeElt.getWithType,
      visit_eq_self_of_no_placeholder AB M ContextFn hmap elt.Ty h.1,
      visitFields_eq_self_of_no_placeholder AB M ContextFn hmap rest h.2]
theorem visitParameters_eq_self_of_no_placeholder (AB : ArchetypeBuilder) (M : SILModule)
    (ContextFn : SILFunction)
    (hmap : ∀ u : CanType, u.containsPlaceholder = false →
      AB.mapTypeIntoContext M.SwiftModule ContextFn.ContextGenericParams (Ty.can u) = Ty.can u) :
    ∀ Parameters : List (SILParameterInfo CanType),
      CanType.parametersContainPlaceholder Parameters = false →
      MapSILTypeIntoContext.visitParameters AB M ContextFn Parameters = Parameters
  | [], _ => by simp [MapSILTypeIntoContext.visitParameters]
  | param :: rest, h => by
    simp only [CanType.parametersContainPlaceholder, Bool.or_eq_false_iff] at h
    simp [MapSILTypeIntoContext.visitParameters, SILParameterInfo.withType,
      visit_eq_self_of_no_placeholder AB M ContextFn hmap param.Ty h.1,
      visitParameters_eq_self_of_no_placeholder AB M ContextFn hmap rest h.2]
end

/-- C7: when the Context Mapper of the function context returns every canonical
type without placeholder unchanged, `SILFunction::mapTypeIntoContext` returns a
lowered type without placeholder (no generic parameter and no dependent member
type anywhere in it) equal to its input. -/
theorem C7_no_placeholder_roundtrip (AB : ArchetypeBuilder) (M : SILModule)
    (this : SILFunction) (type : SILType)
    (hmap : ∀ u : CanType, u.containsPlaceholder = false →
      AB.mapTypeIntoContext M.SwiftModule this.ContextGenericParams (Ty.can u) = Ty.can u)
    (hfree : type.getSwiftRValueType.containsPlaceholder = false) :
    this.mapTypeIntoContextSIL AB M type = type := by
  have hv := visit_eq_self_of_no_placeholder AB M this hmap type.getSwiftRValueType hfree
  cases type with
  | mk T category =>
    simp only [SILType.getSwiftRValueType] at hv
    simp [SILFunction.mapTypeIntoContextSIL, SILType.getPrimitiveType, SILType.getCategory,
      SILType.getSwiftRValueType, hv]

/-- C7 at the address of a tuple `(x: Int, f: (Int) -> Int)` with the identity
Context Mapper. -/
theorem C7_no_placeholder_roundtrip_witness :
    (fooAt 0 []).mapTypeIntoContextSIL idMapper emptyModule
        { Ty := .Tuple [{ Name := "x", Ty := intType }, { Name := "f", Ty := thinType }],
          Category := SILValueCategory.Address } =
      { Ty := .Tuple [{ Name := "x", Ty := intType }, { Name := "f", Ty := thinType }],
        Category := SILValueCategory.Address } :=
  C7_no_placeholder_roundtrip idMapper emptyModule (fooAt 0 [])
    { Ty := .Tuple [{ Name := "x", Ty := intType }, { Name := "f", Ty := thinType }],
      Category := SILValueCategory.Address }
    (fun _ _ => rfl) (by rfl)

/-! ## Types with no visit method of their own -/

/-- C12: on a type that is neither a dependent member type, nor a tuple, nor a
lowered function type, the visitor returns the canonical form of the Context
Mapper's result on the type itself; the result is the same whatever the Lowering
Oracle of the module is, and the only invocation of the visitor is the one on
the type itself, none on a child. -/
theorem C12_other_types_use_context_mapper (AB : ArchetypeBuilder) (M : SILModule)
    (ContextFn : SILFunction) (t : CanType)
    (hdep : ∀ Base AssocType, t ≠ .DependentMember Base AssocType)
    (htuple : ∀ Fields, t ≠ .Tuple Fields)
    (hfun : ∀ GenericSig ExtInfo CalleeConvention Parameters Result,
      t ≠ .SILFunction GenericSig ExtInfo CalleeConvention Parameters Result) :
    MapSILTypeIntoContext.visit AB M ContextFn t =
        (AB.mapTypeIntoContext M.SwiftModule ContextFn.ContextGenericParams
          (Ty.can t)).getCanonicalType ∧
      (∀ Types : TypeConverter,
        MapSILTypeIntoContext.visit AB { M with Types := Types } ContextFn t =
          MapSILTypeIntoContext.visit AB M ContextFn t) ∧
      (MapSILTypeIntoContext.visitLogged AB M ContextFn [] t).2 = [[]] := by
  cases t with
  | DependentMember Base AssocType => exact absurd rfl (hdep Base AssocType)
  | Tuple Fields => exact absurd rfl (htuple Fields)
  | SILFunction GenericSig ExtInfo CalleeConvention Parameters Result =>
    exact absurd rfl (hfun GenericSig ExtInfo CalleeConvention Parameters Result)
  | GenericTypeParam Depth Index =>
    simp [MapSILTypeIntoContext.visit, MapSILTypeIntoContext.visitType,
      SILFunction.mapTypeIntoContext, MapSILTypeIntoContext.visitLogged]
  | Archetype id =>
    simp [MapSILTypeIntoContext.visit, MapSILTypeIntoContext.visitType,
      SILFunction.mapTypeIntoContext, MapSILTypeIntoContext.visitLogged]
  | Other Kind Children =>
    simp [MapSILTypeIntoContext.visit, MapSILTypeIntoContext.visitType,
      SILFunction.mapTypeIntoContext, MapSILTypeIntoContext.visitLogged]

/-- C12 at a bound generic type `Array<T>` whose child is a generic parameter:
the identity mapper returns the node itself, child included. -/
theorem C12_other_types_use_context_mapper_witness :
    MapSILTypeIntoContext.visit idMapper emptyModule (fooAt 0 [])
        (.Other "Array" [.GenericTypeParam 0 0]) =
        (idMapper.mapTypeIntoContext emptyModule.SwiftModule (fooAt 0 []).ContextGenericParams
          (Ty.can (.Other "Array" [.GenericTypeParam 0 0]))).getCanonicalType ∧
      (∀ Types : TypeConverter,
        MapSILTypeIntoContext.visit idMapper { emptyModule with Types := Types } (fooAt 0 [])
            (.Other "Array" [.GenericTypeParam 0 0]) =
          MapSILTypeIntoContext.visit idMapper emptyModule (fooAt 0 [])
            (.Other "Array" [.GenericTypeParam 0 0])) ∧
      (MapSILTypeIntoContext.visitLogged idMapper emptyModule (fooAt 0 []) []
        (.Other "Array" [.GenericTypeParam 0 0])).2 = [[]] :=
  C12_other_types_use_context_mapper idMapper emptyModule (fooAt 0 [])
    (.Other "Array" [.GenericTypeParam 0 0])
    (fun _ _ h => by cases h) (fun _ h => by cases h) (fun _ _ _ _ _ h => by cases h)

/-- C18: `SILFunction::mapTypeIntoContext(SILType)` returns a SIL type with the
category of its argument whose underlying type is the visitor's result on the
underlying type of the argument. -/
theorem C18_sil_type_category_kept (AB : ArchetypeBuilder) (M : SILModule)
    (this : SILFunction) (type : SILType) :
    (this.mapTypeIntoContextSIL AB M type).getCategory = type.getCategory ∧
      (this.mapTypeIntoContextSIL AB M type).getSwiftRValueType =
        MapSILTypeIntoContext.visit AB M this type.getSwiftRValueType :=
  ⟨rfl, rfl⟩

/-! ## Setting the declaration context -/

/-- C14, as the code has it: for a declaration that is not null, in a build with
assertions, a call of `setDeclContext` that returns leaves a declaration context
that is not null; for a null declaration the call returns, in both builds, and
leaves the function as it was, so the context is null afterwards when it was
null before. -/
theorem C14_decl_context_set_after_return (NDEBUG : Bool) (this : SILFunction) :
    (∀ (D : Decl) (this1 : SILFunction),
      SILFunction.setDeclContext false this (some D) = .ok () this1 →
        this1.DeclCtx ≠ none) ∧
      SILFunction.setDeclContext NDEBUG this none = .ok () this := by
  refine ⟨?_, rfl⟩
  intro D this1 hok
  simp only [SILFunction.setDeclContext] at hok
  split at hok
  · cases hok
  · rename_i hcheck
    injection hok with _ hstate
    rw [← hstate]
    intro hnull
    exact hcheck ⟨trivial, hnull⟩

/-- C14 at a function declaration at address 7, for a function with no context:
the call returns and the context is the declaration. -/
theorem C14_decl_context_set_after_return_witness :
    SILFunction.setDeclContext false (fooAt 0 [])
        (some { addr := 7, Kind := DeclKind.Func, DeclContext := none }) =
        .ok () { fooAt 0 [] with DeclCtx := some 7 } ∧
      ({ fooAt 0 [] with DeclCtx := some 7 } : SILFunction).DeclCtx ≠ none :=
  ⟨rfl, (C14_decl_context_set_after_return false (fooAt 0 [])).1
    { addr := 7, Kind := DeclKind.Func, DeclContext := none }
    { fooAt 0 [] with DeclCtx := some 7 } rfl⟩

/-- C14 fails for a null declaration: in a build with assertions the call on a
function with no declaration context returns without stopping at the assertion,
and the context is still null. -/
theorem C14_null_declaration_counterexample :
    SILFunction.setDeclContext false (fooAt 0 []) none = .ok () (fooAt 0 []) ∧
      (fooAt 0 []).DeclCtx = none :=
  ⟨rfl, rfl⟩

/-- C15: for a declaration `D` that is not null, `setDeclContext` ends, by
returning or at its assertion, in a function that differs from the one before
only in the declaration context, which is `D` itself for the kinds function,
constructor, extension and destructor and the enclosing context of `D` for every
other kind.  It returns when that context is not null or the build has no
assertions. -/
theorem C15_decl_context_by_kind (NDEBUG : Bool) (this : SILFunction) (D : Decl) :
    (SILFunction.setDeclContext NDEBUG this (some D) =
        .ok () { this with DeclCtx :=
          if D.Kind = .Func ∨ D.Kind = .Constructor ∨ D.Kind = .Extension ∨
            D.Kind = .Destructor then some D.addr else D.DeclContext } ∨
      SILFunction.setDeclContext NDEBUG this (some D) =
        .assertFail "DeclCtx" { this with DeclCtx :=
          if D.Kind = .Func ∨ D.Kind = .Constructor ∨ D.Kind = .Extension ∨
            D.Kind = .Destructor then some D.addr else D.DeclContext }) ∧
      ((NDEBUG = true ∨
          (if D.Kind = .Func ∨ D.Kind = .Constructor ∨ D.Kind = .Extension ∨
            D.Kind = .Destructor then some D.addr else D.DeclContext) ≠ none) →
        SILFunction.setDeclContext NDEBUG this (some D) =
          .ok () { this with DeclCtx :=
            if D.Kind = .Func ∨ D.Kind = .Constructor ∨ D.Kind = .Extension ∨
              D.Kind = .Destructor then some D.addr else D.DeclContext }) := by
  cases D with
  | mk addr Kind DeclContext =>
    cases Kind <;> cases NDEBUG <;> cases DeclContext <;>
      simp [SILFunction.setDeclContext]

/-- C15 at a variable declaration (another kind) at address 7 inside the context
at address 9. -/
theorem C15_decl_context_by_kind_witness :
    SILFunction.setDeclContext false (fooAt 0 [])
        (some { addr := 7, Kind := DeclKind.Other 0, DeclContext := some 9 }) =
      .ok () { fooAt 0 [] with DeclCtx := some 9 } :=
  (C15_decl_context_by_kind false (fooAt 0 [])
    { addr := 7, Kind := DeclKind.Other 0, DeclContext := some 9 }).2
    (Or.inr (by decide))

/-- C16: `setDeclContext` on an expression sets the declaration context to the
expression when it is an `AbstractClosureExpr` and to null otherwise, a null
expression included, whatever the context was before, and changes no other
field. -/
theorem C16_expr_context_closure_or_null (this : SILFunction) (E : Option Expr) :
    (this.setDeclContextExpr E).DeclCtx =
        (match E with
         | some e => if e.isAbstractClosureExpr = true then some e.addr else none
         | none => none) ∧
      this.setDeclContextExpr E = { this with DeclCtx := (this.setDeclContextExpr E).DeclCtx } := by
  cases E with
  | none => exact ⟨rfl, rfl⟩
  | some e => exact ⟨rfl, rfl⟩

/-! ## The case value of an edge -/

/-- A case lookup returns the value of the first case whose destination is the
block, when there is one. -/
theorem getCaseValueForBB_of_case {CaseValueTy : Type} (BB : Addr) :
    ∀ Cases : List (CaseValueTy × Addr), BB ∈ Cases.map (fun P => P.2) →
      ∃ pre P post, Cases = pre ++ P :: post ∧ P.2 = BB ∧
        (∀ Q ∈ pre, Q.2 ≠ BB) ∧ getCaseValueForBB Cases BB = .value P.1
  | [], h => by simp at h
  | P :: rest, h => by
    by_cases hP : P.2 = BB
    · exact ⟨[], P, rest, rfl, hP, by simp, by simp [getCaseValueForBB, hP]⟩
    · have hrest : BB ∈ rest.map (fun P => P.2) := by
        simp only [List.map_cons, List.mem_cons] at h
        rcases h with h | h
        · exact absurd h.symm hP
        · exact h
      obtain ⟨pre, Q, post, hl, hQ, hpre, hval⟩ := getCaseValueForBB_of_case BB rest hrest
      refine ⟨P :: pre, Q, post, by simp [hl], hQ, ?_, by simp [getCaseValueForBB, hP, hval]⟩
      intro R hR
      simp only [List.mem_cons] at hR
      rcases hR with hR | hR
      · rw [hR]
        exact hP
      · exact hpre R hR

/-- The integer switch never reaches the unreachable for a successor: it tests
the default destination before the lookup. -/
theorem getEdgeSourceLabel_SwitchIntInst_value (Cases : List (Int × Addr))
    (DefaultBB : Option Addr) (Succ : Addr)
    (hsucc : Succ ∈ (TermInst.SwitchIntInst Cases DefaultBB).getSuccessors) :
    ∃ label, getEdgeSourceLabel (.SwitchIntInst Cases DefaultBB) Succ = .value label := by
  by_cases hdef : DefaultBB = some Succ
  · exact ⟨.text "def", by simp [getEdgeSourceLabel, hdef]⟩
  · have hcase : Succ ∈ Cases.map (fun P => P.2) := by
      simp only [TermInst.getSuccessors, List.mem_append] at hsucc
      rcases hsucc with h | h
      · exact h
      · cases DefaultBB with
        | none => simp at h
        | some d =>
          simp only [Option.toList, List.mem_singleton] at h
          exact absurd (by rw [h]) hdef
    obtain ⟨_, P, _, _, _, _, hval⟩ := getCaseValueForBB_of_case Succ Cases hcase
    exact ⟨.caseValue P.1, by simp [getEdgeSourceLabel, hdef, hval]⟩

/-- C19 fails on an enum switch with a default destination: for `switch_enum`
with the one case `(element 10, block 1)` and the default block 2, the block 2
is a successor, and the edge label of block 2 runs the case lookup into the
unreachable, where the integer switch answers `def`. -/
theorem C19_switch_enum_default_unreachable :
    (2 : Addr) ∈ (TermInst.SwitchEnumInst [(10, 1)] (some 2)).getSuccessors ∧
      getEdgeSourceLabel (.SwitchEnumInst [(10, 1)] (some 2)) 2 =
        .unreachable "Error! should never pass in BB that is not a successor" ∧
      getEdgeSourceLabel (.SwitchEnumAddrInst [(10, 1)] (some 2)) 2 =
        .unreachable "Error! should never pass in BB that is not a successor" ∧
      getEdgeSourceLabel (.SwitchIntInst [(10, 1)] (some 2)) 2 = .value (.text "def") := by
  decide

mutual
theorem visitLogged_fst (AB : ArchetypeBuilder) (M : SILModule) (ContextFn : SILFunction) :
    ∀ (path : List Nat) (t : CanType),
      (MapSILTypeIntoContext.visitLogged AB M ContextFn path t).1 =
        MapSILTypeIntoContext.visit AB M ContextFn t
  | _, .GenericTypeParam _ _ => by
    simp [MapSILTypeIntoContext.visitLogged, MapSILTypeIntoContext.visit]
  | _, .DependentMember _ _ => by
    simp [MapSILTypeIntoContext.visitLogged, MapSILTypeIntoContext.visit]
  | path, .Tuple Fields => by
    simp [MapSILTypeIntoContext.visitLogged, MapSILTypeIntoContext.visit,
      visitFieldsLogged_fst AB M ContextFn path 0 Fields]
  | path, .SILFunction _ _ _ Parameters Result => by
    simp [MapSILTypeIntoContext.visitLogged, MapSILTypeIntoContext.visit,
      visitParametersLogged_fst AB M ContextFn path 0 Parameters,
      visitLogged_fst AB M ContextFn (path ++ [Parameters.length]) Result.Ty]
  | _, .Archetype _ => by
    simp [MapSILTypeIntoContext.visitLogged, MapSILTypeIntoContext.visit]
  | _, .Other _ _ => by
    simp [MapSILTypeIntoContext.visitLogged, MapSILTypeIntoContext.visit]
theorem visitFieldsLogged_fst (AB : ArchetypeBuilder) (M : SILModule)
    (ContextFn : SILFunction) :
    ∀ (path : List Nat) (k : Nat) (Fields : List (TupleTypeElt CanType)),
      (MapSILTypeIntoContext.visitFieldsLogged AB M ContextFn path k Fields).1 =
        MapSILTypeIntoContext.visitFields AB M ContextFn Fields
  | _, _, [] => by
    simp [MapSILTypeIntoContext.visitFieldsLogged, MapSILTypeIntoContext.visitFields]
  | path, k, elt :: rest => by
    simp [MapSILTypeIntoContext.visitFieldsLogged, MapSILTypeIntoContext.visitFields,
      visitLogged_fst AB M ContextFn (path ++ [k]) elt.Ty,
      visitFieldsLogged_fst AB M ContextFn path (k + 1) rest]
theorem visitParametersLogged_fst (AB : ArchetypeBuilder) (M : SILModule)
    (ContextFn : SILFunction) :
    ∀ (path : List Nat) (k : Nat) (Parameters : List (SILParameterInfo CanType)),
      (MapSILTypeIntoContext.visitParametersLogged AB M ContextFn path k Parameters).1 =
        MapSILTypeIntoContext.visitParameters AB M ContextFn Parameters
  | _, _, [] => by
    simp [MapSILTypeIntoContext.visitParametersLogged, MapSILTypeIntoContext.visitParameters]
  | path, k, param :: rest => by
    simp [MapSILTypeIntoContext.visitParametersLogged, MapSILTypeIntoContext.visitParameters,
      visitLogged_fst AB M ContextFn (path ++ [k]) param.Ty,
      visitParametersLogged_fst AB M ContextFn path (k + 1) rest]
end

mutual
theorem visitLogged_length_le (AB : ArchetypeBuilder) (M : SILModule)
    (ContextFn : SILFunction) :
    ∀ (path : List Nat) (t : CanType),
      (MapSILTypeIntoContext.visitLogged AB M ContextFn path t).2.length ≤ t.numNodes
  | _, .GenericTypeParam _ _ => by
    simp [MapSILTypeIntoContext.visitLogged, CanType.numNodes]
  | _, .DependentMember _ _ => by
    simp [MapSILTypeIntoContext.visitLogged, CanType.numNodes]
  | path, .Tuple Fields => by
    have h := visitFieldsLogged_length_le AB M ContextFn path 0 Fields
    simp only [MapSILTypeIntoContext.visitLogged, CanType.numNodes, List.length_cons]
    omega
  | path, .SILFunction _ _ _ Parameters Result => by
    have h1 := visitParametersLogged_length_le AB M ContextFn path 0 Parameters
    have h2 := visitLogged_length_le AB M ContextFn (path ++ [Parameters.length]) Result.Ty
    simp only [MapSILTypeIntoContext.visitLogged, CanType.numNodes, List.length_cons,
      List.length_append]
    omega
  | _, .Archetype _ => by
    simp [MapSILTypeIntoContext.visitLogged, CanType.numNodes]
  | _, .Other _ _ => by
    simp [MapSILTypeIntoContext.visitLogged, CanType.numNodes]
theorem visitFieldsLogged_length_le (AB : ArchetypeBuilder) (M : SILModule)
    (ContextFn : SILFunction) :
    ∀ (path : List Nat) (k : Nat) (Fields : List (TupleTypeElt CanType)),
      (MapSILTypeIntoContext.visitFieldsLogged AB M ContextFn path k Fields).2.length ≤
        CanType.numNodesFields Fields
  | _, _, [] => by
    simp [MapSILTypeIntoContext.visitFieldsLogged, CanType.numNodesFields]
  | path, k, elt :: rest => by
    have h1 := visitLogged_length_le AB M ContextFn (path ++ [k]) elt.Ty
    have h2 := visitFieldsLogged_length_le AB M ContextFn path (k + 1) rest
    simp only [MapSILTypeIntoContext.visitFieldsLogged, CanType.numNodesFields,
      List.length_append]
    omega
theorem visitParametersLogged_length_le (AB : ArchetypeBuilder) (M : SILModule)
    (ContextFn : SILFunction) :
    ∀ (path : List Nat) (k : Nat) (Parameters : List (SILParameterInfo CanType)),
      (MapSILTypeIntoContext.visitParametersLogged AB M ContextFn path k Parameters).2.length ≤
        CanType.numNodesParameters Parameters
  | _, _, [] => by
    simp [MapSILTypeIntoContext.visitParametersLogged, CanType.numNodesParameters]
  | path, k, param :: rest => by
    have h1 := visitLogged_length_le AB M ContextFn (path ++ [k]) param.Ty
    have h2 := visitParametersLogged_length_le AB M ContextFn path (k + 1) rest
    simp only [MapSILTypeIntoContext.visitParametersLogged, CanType.numNodesParameters,
      List.length_append]
    omega
end

mutual
theorem visitLogged_under_path (AB : ArchetypeBuilder) (M : SILModule) (ContextFn : SILFunction) :
    ∀ (path : List Nat) (t : CanType),
      ∀ q ∈ (MapSILTypeIntoContext.visitLogged AB M ContextFn path t).2, path <+: q
  | path, .GenericTypeParam _ _ => by
    simp [MapSILTypeIntoContext.visitLogged]
  | path, .DependentMember _ _ => by
    simp [MapSILTypeIntoContext.visitLogged]
  | path, .Tuple Fields => by
    intro q hq
    simp only [MapSILTypeIntoContext.visitLogged, List.mem_cons] at hq
    rcases hq with hq | hq
    · rw [hq]
    · obtain ⟨j, _, _, hj⟩ := visitFieldsLogged_under_path AB M ContextFn path 0 Fields q hq
      exact (List.prefix_append path [j]).trans hj
  | path, .SILFunction _ _ _ Parameters Result => by
    intro q hq
    simp only [MapSILTypeIntoContext.visitLogged, List.mem_cons, List.mem_append] at hq
    rcases hq with hq | hq | hq
    · rw [hq]
    · obtain ⟨j, _, _, hj⟩ :=
        visitParametersLogged_under_path AB M ContextFn path 0 Parameters q hq
      exact (List.prefix_append path [j]).trans hj
    · exact (List.prefix_append path [Parameters.length]).trans
        (visitLogged_under_path AB M ContextFn (path ++ [Parameters.length]) Result.Ty q hq)
  | path, .Archetype _ => by
    simp [MapSILTypeIntoContext.visitLogged]
  | path, .Other _ _ => by
    simp [MapSILTypeIntoContext.visitLogged]
theorem visitFieldsLogged_under_path (AB : ArchetypeBuilder) (M : SILModule)
    (ContextFn : SILFunction) :
    ∀ (path : List Nat) (k : Nat) (Fields : List (TupleTypeElt CanType)),
      ∀ q ∈ (MapSILTypeIntoContext.visitFieldsLogged AB M ContextFn path k Fields).2,
        ∃ j, k ≤ j ∧ j < k + Fields.length ∧ (path ++ [j]) <+: q
  | _, _, [] => by
    simp [MapSILTypeIntoContext.visitFieldsLogged]
  | path, k, elt :: rest => by
    intro q hq
    simp only [MapSILTypeIntoContext.visitFieldsLogged, List.mem_append] at hq
    rcases hq with hq | hq
    · exact ⟨k, le_refl k, by simp, visitLogged_under_path AB M ContextFn (path ++ [k]) elt.Ty q hq⟩
    · obtain ⟨j, hj1, hj2, hj3⟩ :=
        visitFieldsLogged_under_path AB M ContextFn path (k + 1) rest q hq
      exact ⟨j, by omega, by simp only [List.length_cons]; omega, hj3⟩
theorem visitParametersLogged_under_path (AB : ArchetypeBuilder) (M : SILModule)
    (ContextFn : SILFunction) :
    ∀ (path : List Nat) (k : Nat) (Parameters : List (SILParameterInfo CanType)),
      ∀ q ∈ (MapSILTypeIntoContext.visitParametersLogged AB M ContextFn path k Parameters).2,
        ∃ j, k ≤ j ∧ j < k + Parameters.length ∧ (path ++ [j]) <+: q
  | _, _, [] => by
    simp [MapSILTypeIntoContext.visitParametersLogged]
  | path, k, param :: rest => by
    intro q hq
    simp only [MapSILTypeIntoContext.visitParametersLogged, List.mem_append] at hq
    rcases hq with hq | hq
    · exact ⟨k, le_refl k, by simp,
        visitLogged_under_path AB M ContextFn (path ++ [k]) param.Ty q hq⟩
    · obtain ⟨j, hj1, hj2, hj3⟩ :=
        visitParametersLogged_under_path AB M ContextFn path (k + 1) rest q hq
      exact ⟨j, by omega, by simp only [List.length_cons]; omega, hj3⟩
end

/-- A path has one child index after a given prefix. -/
theorem child_index_unique (path q : List Nat) (j k : Nat)
    (hj : (path ++ [j]) <+: q) (hk : (path ++ [k]) <+: q) : j = k := by
  obtain ⟨r1, h1⟩ := hj
  obtain ⟨r2, h2⟩ := hk
  rw [← h2, List.append_assoc, List.append_assoc] at h1
  have h3 := List.append_cancel_left h1
  simp only [List.singleton_append, List.cons.injEq] at h3
  exact h3.1

/-- A path is not a child of itself. -/
theorem not_child_prefix_self (path : List Nat) (j : Nat) : ¬ (path ++ [j]) <+: path := by
  intro h
  have := h.length_le
  simp at this

mutual
theorem visitLogged_nodup (AB : ArchetypeBuilder) (M : SILModule) (ContextFn : SILFunction) :
    ∀ (path : List Nat) (t : CanType),
      (MapSILTypeIntoContext.visitLogged AB M ContextFn path t).2.Nodup
  | _, .GenericTypeParam _ _ => by
    simp [MapSILTypeIntoContext.visitLogged]
  | _, .DependentMember _ _ => by
    simp [MapSILTypeIntoContext.visitLogged]
  | path, .Tuple Fields => by
    simp only [MapSILTypeIntoContext.visitLogged, List.nodup_cons]
    refine ⟨?_, visitFieldsLogged_nodup AB M ContextFn path 0 Fields⟩
    intro hin
    obtain ⟨j, _, _, hj⟩ := visitFieldsLogged_under_path AB M ContextFn path 0 Fields path hin
    exact not_child_prefix_self path j hj
  | path, .SILFunction _ _ _ Parameters Result => by
    simp only [MapSILTypeIntoContext.visitLogged, List.nodup_cons, List.mem_append,
      List.nodup_append]
    refine ⟨?_, visitParametersLogged_nodup AB M ContextFn path 0 Parameters,
      visitLogged_nodup AB M ContextFn (path ++ [Parameters.length]) Result.Ty, ?_⟩
    · rintro (hin | hin)
      · obtain ⟨j, _, _, hj⟩ :=
          visitParametersLogged_under_path AB M ContextFn path 0 Parameters path hin
        exact not_child_prefix_self path j hj
      · exact not_child_prefix_self path Parameters.length
          (visitLogged_under_path AB M ContextFn (path ++ [Parameters.length]) Result.Ty path hin)
    · intro q hq1 hq2
      obtain ⟨j, _, hj2, hj⟩ :=
        visitParametersLogged_under_path AB M ContextFn path 0 Parameters q hq1
      have hr := visitLogged_under_path AB M ContextFn (path ++ [Parameters.length]) Result.Ty q hq2
      have := child_index_unique path q j Parameters.length hj hr
      omega
  | _, .Archetype _ => by
    simp [MapSILTypeIntoContext.visitLogged]
  | _, .Other _ _ => by
    simp [MapSILTypeIntoContext.visitLogged]
theorem visitFieldsLogged_nodup (AB : ArchetypeBuilder) (M : SILModule)
    (ContextFn : SILFunction) :
    ∀ (path : List Nat) (k : Nat) (Fields : List (TupleTypeElt CanType)),
      (MapSILTypeIntoContext.visitFieldsLogged AB M ContextFn path k Fields).2.Nodup
  | _, _, [] => by
    simp [MapSILTypeIntoContext.visitFieldsLogged]
  | path, k, elt :: rest => by
    simp only [MapSILTypeIntoContext.visitFieldsLogged, List.nodup_append]
    refine ⟨visitLogged_nodup AB M ContextFn (path ++ [k]) elt.Ty,
      visitFieldsLogged_nodup AB M ContextFn path (k + 1) rest, ?_⟩
    intro q hq1 hq2
    have h1 := visitLogged_under_path AB M ContextFn (path ++ [k]) elt.Ty q hq1
    obtain ⟨j, hj1, _, hj⟩ := visitFieldsLogged_under_path AB M ContextFn path (k + 1) rest q hq2
    have := child_index_unique path q k j h1 hj
    omega
theorem visitParametersLogged_nodup (AB : ArchetypeBuilder) (M : SILModule)
    (ContextFn : SILFunction) :
    ∀ (path : List Nat) (k : Nat) (Parameters : List (SILParameterInfo CanType)),
      (MapSILTypeIntoContext.visitParametersLogged AB M ContextFn path k Parameters).2.Nodup
  | _, _, [] => by
    simp [MapSILTypeIntoContext.visitParametersLogged]
  | path, k, param :: rest => by
    simp only [MapSILTypeIntoContext.visitParametersLogged, List.nodup_append]
    refine ⟨visitLogged_nodup AB M ContextFn (path ++ [k]) param.Ty,
      visitParametersLogged_nodup AB M ContextFn path (k + 1) rest, ?_⟩
    intro q hq1 hq2
    have h1 := visitLogged_under_path AB M ContextFn (path ++ [k]) param.Ty q hq1
    obtain ⟨j, hj1, _, hj⟩ :=
      visitParametersLogged_under_path AB M ContextFn path (k + 1) rest q hq2
    have := child_index_unique path q k j h1 hj
    omega
end

theorem numNodes_pos : ∀ t : CanType, 0 < t.numNodes
  | .GenericTypeParam _ _ => by simp [CanType.numNodes]
  | .DependentMember _ _ => by simp [CanType.numNodes]
  | .Tuple _ => by simp [CanType.numNodes]
  | .SILFunction _ _ _ _ _ => by simp [CanType.numNodes]
  | .Archetype _ => by simp [CanType.numNodes]
  | .Other _ _ => by simp [CanType.numNodes]

theorem numNodes_le_numNodesFields (c : CanType) :
    ∀ Fields : List (TupleTypeElt CanType), c ∈ Fields.map (fun elt => elt.Ty) →
      c.numNodes ≤ CanType.numNodesFields Fields
  | [], h => by simp at h
  | elt :: rest, h => by
    simp only [List.map_cons, List.mem_cons] at h
    simp only [CanType.numNodesFields]
    rcases h with h | h
    · rw [h]
      omega
    · have := numNodes_le_numNodesFields c rest h
      omega

theorem numNodes_le_numNodesParameters (c : CanType) :
    ∀ Parameters : List (SILParameterInfo CanType),
      c ∈ Parameters.map (fun param => param.Ty) →
      c.numNodes ≤ CanType.numNodesParameters Parameters
  | [], h => by simp at h
  | param :: rest, h => by
    simp only [List.map_cons, List.mem_cons] at h
    simp only [CanType.numNodesParameters]
    rcases h with h | h
    · rw [h]
      omega
    · have := numNodes_le_numNodesParameters c rest h
      omega

mutual
theorem visitLogged_length_path (AB : ArchetypeBuilder) (M : SILModule)
    (ContextFn : SILFunction) :
    ∀ (path : List Nat) (t : CanType),
      (MapSILTypeIntoContext.visitLogged AB M ContextFn path t).2.length =
        (MapSILTypeIntoContext.visitLogged AB M ContextFn [] t).2.length
  | _, .GenericTypeParam _ _ => by simp [MapSILTypeIntoContext.visitLogged]
  | _, .DependentMember _ _ => by simp [MapSILTypeIntoContext.visitLogged]
  | path, .Tuple Fields => by
    simp only [MapSILTypeIntoContext.visitLogged, List.length_cons,
      visitFieldsLogged_length_path AB M ContextFn path 0 Fields,
      visitFieldsLogged_length_path AB M ContextFn [] 0 Fields]
  | path, .SILFunction _ _ _ Parameters Result => by
    simp only [MapSILTypeIntoContext.visitLogged, List.length_cons, List.length_append,
      visitParametersLogged_length_path AB M ContextFn path 0 Parameters,
      visitParametersLogged_length_path AB M ContextFn [] 0 Parameters,
      visitLogged_length_path AB M ContextFn (path ++ [Parameters.length]) Result.Ty,
      visitLogged_length_path AB M ContextFn ([] ++ [Parameters.length]) Result.Ty]
  | _, .Archetype _ => by simp [MapSILTypeIntoContext.visitLogged]
  | _, .Other _ _ => by simp [MapSILTypeIntoContext.visitLogged]
theorem visitFieldsLogged_length_path (AB : ArchetypeBuilder) (M : SILModule)
    (ContextFn : SILFunction) :
    ∀ (path : List Nat) (k : Nat) (Fields : List (TupleTypeElt CanType)),
      (MapSILTypeIntoContext.visitFieldsLogged AB M ContextFn path k Fields).2.length =
        ((Fields.map (fun elt => elt.Ty)).map (fun c =>
          (MapSILTypeIntoContext.visitLogged AB M ContextFn [] c).2.length)).sum
  | _, _, [] => by simp [MapSILTypeIntoContext.visitFieldsLogged]
  | path, k, elt :: rest => by
    simp only [MapSILTypeIntoContext.visitFieldsLogged, List.length_append, List.map_cons,
      List.sum_cons, visitLogged_length_path AB M ContextFn (path ++ [k]) elt.Ty,
      visitFieldsLogged_length_path AB M ContextFn path (k + 1) rest]
theorem visitParametersLogged_length_path (AB : ArchetypeBuilder) (M : SILModule)
    (ContextFn : SILFunction) :
    ∀ (path : List Nat) (k : Nat) (Parameters : List (SILParameterInfo CanType)),
      (MapSILTypeIntoContext.visitParametersLogged AB M ContextFn path k Parameters).2.length =
        ((Parameters.map (fun param => param.Ty)).map (fun c =>
          (MapSILTypeIntoContext.visitLogged AB M ContextFn [] c).2.length)).sum
  | _, _, [] => by simp [MapSILTypeIntoContext.visitParametersLogged]
  | path, k, param :: rest => by
    simp only [MapSILTypeIntoContext.visitParametersLogged, List.length_append, List.map_cons,
      List.sum_cons, visitLogged_length_path AB M ContextFn (path ++ [k]) param.Ty,
      visitParametersLogged_length_path AB M ContextFn path (k + 1) rest]
end

/-- The invocations of `visit` on a type are the invocation on the type itself
and the invocations on the types that this call calls `visit` on. -/
theorem visitLogged_length_eq (AB : ArchetypeBuilder) (M : SILModule)
    (ContextFn : SILFunction) (t : CanType) :
    (MapSILTypeIntoContext.visitLogged AB M ContextFn [] t).2.length =
      1 + ((MapSILTypeIntoContext.recursiveCalls t).map (fun c =>
        (MapSILTypeIntoContext.visitLogged AB M ContextFn [] c).2.length)).sum := by
  cases t with
  | GenericTypeParam _ _ =>
    simp [MapSILTypeIntoContext.visitLogged, MapSILTypeIntoContext.recursiveCalls]
  | DependentMember _ _ =>
    simp [MapSILTypeIntoContext.visitLogged, MapSILTypeIntoContext.recursiveCalls]
  | Archetype _ =>
    simp [MapSILTypeIntoContext.visitLogged, MapSILTypeIntoContext.recursiveCalls]
  | Other _ _ =>
    simp [MapSILTypeIntoContext.visitLogged, MapSILTypeIntoContext.recursiveCalls]
  | Tuple Fields =>
    simp only [MapSILTypeIntoContext.visitLogged, MapSILTypeIntoContext.recursiveCalls,
      List.length_cons, visitFieldsLogged_length_path AB M ContextFn [] 0 Fields]
    omega
  | SILFunction _ _ _ Parameters Result =>
    simp only [MapSILTypeIntoContext.visitLogged, MapSILTypeIntoContext.recursiveCalls,
      List.length_cons, List.length_append, List.map_append, List.sum_append, List.map_cons,
      List.map_nil, List.sum_cons, List.sum_nil,
      visitParametersLogged_length_path AB M ContextFn [] 0 Parameters,
      visitLogged_length_path AB M ContextFn ([] ++ [Parameters.length]) Result.Ty]
    omega

/-- C13: the visitor is total (it is defined by recursion on the structure of
the type) and, run with a log of the nodes it is invoked on, returns the result
of `visit` and a log in which no node occurs twice and that is at most as long as
the number of type nodes of the input; the log has one entry for the call on
the type and the entries of the calls that this call makes, on field types,
parameter types and the result type, each of which has fewer nodes than the type
of the call. -/
theorem C13_visitor_linear (AB : ArchetypeBuilder) (M : SILModule) (ContextFn : SILFunction)
    (t : CanType) :
    (MapSILTypeIntoContext.visitLogged AB M ContextFn [] t).1 =
        MapSILTypeIntoContext.visit AB M ContextFn t ∧
      (MapSILTypeIntoContext.visitLogged AB M ContextFn [] t).2.length ≤ t.numNodes ∧
      (MapSILTypeIntoContext.visitLogged AB M ContextFn [] t).2.Nodup ∧
      (MapSILTypeIntoContext.visitLogged AB M ContextFn [] t).2.length =
        1 + ((MapSILTypeIntoContext.recursiveCalls t).map (fun c =>
          (MapSILTypeIntoContext.visitLogged AB M ContextFn [] c).2.length)).sum ∧
      ∀ c ∈ MapSILTypeIntoContext.recursiveCalls t, c.numNodes < t.numNodes := by
  refine ⟨visitLogged_fst AB M ContextFn [] t, visitLogged_length_le AB M ContextFn [] t,
    visitLogged_nodup AB M ContextFn [] t, visitLogged_length_eq AB M ContextFn t, ?_⟩
  intro c hc
  cases t with
  | GenericTypeParam _ _ => simp [MapSILTypeIntoContext.recursiveCalls] at hc
  | DependentMember _ _ => simp [MapSILTypeIntoContext.recursiveCalls] at hc
  | Archetype _ => simp [MapSILTypeIntoContext.recursiveCalls] at hc
  | Other _ _ => simp [MapSILTypeIntoContext.recursiveCalls] at hc
  | Tuple Fields =>
    simp only [MapSILTypeIntoContext.recursiveCalls] at hc
    have := numNodes_le_numNodesFields c Fields hc
    simp only [CanType.numNodes]
    omega
  | SILFunction _ _ _ Parameters Result =>
    simp only [MapSILTypeIntoContext.recursiveCalls, List.mem_append,
      List.mem_singleton] at hc
    simp only [CanType.numNodes]
    rcases hc with hc | hc
    · have := numNodes_le_numNodesParameters c Parameters hc
      omega
    · rw [hc]
      omega

/-- C13 at the tuple `(x: Int, f: (Int) -> Int)`: five invocations for five
nodes, and the field type `Int` is smaller than the tuple. -/
theorem C13_visitor_linear_witness :
    (MapSILTypeIntoContext.visitLogged idMapper emptyModule (fooAt 0 []) []
        (.Tuple [{ Name := "x", Ty := intType }, { Name := "f", Ty := thinType }])).2.length ≤
        (CanType.Tuple [{ Name := "x", Ty := intType }, { Name := "f", Ty := thinType }]).numNodes ∧
      intType.numNodes <
        (CanType.Tuple [{ Name := "x", Ty := intType }, { Name := "f", Ty := thinType }]).numNodes :=
  ⟨(C13_visitor_linear idMapper emptyModule (fooAt 0 [])
      (.Tuple [{ Name := "x", Ty := intType }, { Name := "f", Ty := thinType }])).2.1,
    (C13_visitor_linear idMapper emptyModule (fooAt 0 [])
      (.Tuple [{ Name := "x", Ty := intType }, { Name := "f", Ty := thinType }])).2.2.2.2
      intType (by simp [MapSILTypeIntoContext.recursiveCalls])⟩

/-! ## The label loop under the wrap policy -/

theorem string_at_append_left (b t : List Char) (k : Nat) (hk : k < b.length) :
    ∃ c ∈ b, string_at (b ++ t) k = some c := by
  refine ⟨b[k], List.getElem_mem _, ?_⟩
  have hlt : k < (b ++ t).length := by
    rw [List.length_append]
    omega
  simp only [string_at, hlt, if_true]
  rw [List.getElem?_eq_getElem hlt, List.getElem_append_left hk]

/-- With no column and the wrap policy, on a text that is one line with no
space, every iteration inserts a marker at the current index and leaves the
index inside the line: the loop never reaches the end of the text. -/
theorem wrap_zero_columns_never_done :
    ∀ (fuel : Nat) (line : List Char) (i : Nat),
      (∀ c ∈ line, c ≠ '\n' ∧ c ≠ ' ') → i < line.length →
      getCompleteNodeLabel.loop
          { MaxColumns := 0, LLBehavior := .Wrap, RemoveUseListComments := false } fuel
          { OutStr := line ++ ['\n'], i := i, ColNum := 0, LastSpace := 0 } = .outOfFuel
  | 0, line, i, _, hi => by
    have hne : i ≠ (line ++ ['\n']).length := by
      simp only [List.length_append, List.length_singleton]
      omega
    rw [getCompleteNodeLabel.loop]
    simp only [hne, if_false]
  | fuel + 1, line, i, hline, hi => by
    have hne : i ≠ (line ++ ['\n']).length := by
      simp only [List.length_append, List.length_singleton]
      omega
    obtain ⟨c, hc, hat⟩ := string_at_append_left line ['\n'] i hi
    have hins : string_insert (line ++ ['\n']) i ['\\', 'l', '.', '.', '.'] =
        some ((line.take i ++ ['\\', 'l', '.', '.', '.'] ++ line.drop i) ++ ['\n']) := by
      have hle : i ≤ (line ++ ['\n']).length := by
        rw [List.length_append]
        omega
      simp only [string_insert, hle, if_true, Option.some.injEq]
      rw [List.take_append_of_le_length (by omega), List.drop_append_of_le_length (by omega)]
      simp
    have hline1 : ∀ d ∈ line.take i ++ ['\\', 'l', '.', '.', '.'] ++ line.drop i,
        d ≠ '\n' ∧ d ≠ ' ' := by
      intro d hd
      simp only [List.mem_append] at hd
      rcases hd with (hd | hd) | hd
      · exact hline d (List.mem_of_mem_take hd)
      · simp only [List.mem_cons, List.mem_singleton, List.not_mem_nil, or_false] at hd
        rcases hd with hd | hd | hd | hd | hd <;> (rw [hd]; decide)
      · exact hline d (List.mem_of_mem_drop hd)
    have hlen1 : (line.take i ++ ['\\', 'l', '.', '.', '.'] ++ line.drop i).length =
        line.length + 5 := by
      simp only [List.length_append, List.length_take, List.length_drop, List.length_cons,
        List.length_nil]
      omega
    have hi3 : (i + 3) % UINT_SIZE <
        (line.take i ++ ['\\', 'l', '.', '.', '.'] ++ line.drop i).length := by
      have := Nat.mod_le (i + 3) UINT_SIZE
      omega
    obtain ⟨c1, hc1, hat1⟩ := string_at_append_left _ ['\n'] _ hi3
    have hi4 : ((i + 3) % UINT_SIZE + 1) % UINT_SIZE <
        (line.take i ++ ['\\', 'l', '.', '.', '.'] ++ line.drop i).length := by
      have h1 := Nat.mod_le (i + 3) UINT_SIZE
      have h2 := Nat.mod_le ((i + 3) % UINT_SIZE + 1) UINT_SIZE
      omega
    have hcol : (i + UINT_SIZE - i) % UINT_SIZE = 0 := by
      rw [Nat.add_sub_cancel_left]
      exact Nat.mod_self _
    have hbody : getCompleteNodeLabel.body
        { MaxColumns := 0, LLBehavior := .Wrap, RemoveUseListComments := false }
        { OutStr := line ++ ['\n'], i := i, ColNum := 0, LastSpace := 0 } =
        some { OutStr := (line.take i ++ ['\\', 'l', '.', '.', '.'] ++ line.drop i) ++ ['\n'],
               i := ((i + 3) % UINT_SIZE + 1) % UINT_SIZE, ColNum := 0, LastSpace := 0 } := by
      simp only [getCompleteNodeLabel.body, hat, Option.bind_eq_bind, Option.some_bind,
        getCompleteNodeLabel.branch, getCompleteNodeLabel.atComment, (hline c hc).1,
        Bool.false_and, Bool.false_eq_true, ↓reduceIte, hins, Option.map_some', hcol, hat1,
        (hline1 c1 hc1).2]
    have hloop := wrap_zero_columns_never_done fuel
      (line.take i ++ ['\\', 'l', '.', '.', '.'] ++ line.drop i)
      (((i + 3) % UINT_SIZE + 1) % UINT_SIZE) hline1 hi4
    rw [getCompleteNodeLabel.loop]
    simp only [hne, if_false, hbody]
    exact hloop

/-- C20 fails at zero columns with the wrap policy: on the block text `bb0:`
with its newline, with no comment removal, the loop of `getCompleteNodeLabel` has
not ended after any number of iterations, and no operation in it is undefined. -/
theorem C20_wrap_zero_columns_never_ends (fuel : Nat) :
    getCompleteNodeLabel
        { MaxColumns := 0, LLBehavior := .Wrap, RemoveUseListComments := false } fuel
        ['b', 'b', '0', ':', '\n'] = .outOfFuel := by
  have h := wrap_zero_columns_never_done fuel ['b', 'b', '0', ':'] 0 (by decide) (by decide)
  simpa [getCompleteNodeLabel, getCompleteNodeLabel.start, string_at] using h

/-! ## The label loop under the truncate policy -/

theorem string_at_boundary (P R : List Char) (c : Char) :
    string_at (P ++ c :: R) P.length = some c := by
  have hlt : P.length < (P ++ c :: R).length := by
    simp only [List.length_append, List.length_cons]
    omega
  simp only [string_at, hlt, if_true]
  rw [List.getElem?_append_right (le_refl _)]
  simp

theorem string_at_last (P R : List Char) (hP : P ≠ []) :
    ∃ d, string_at (P ++ R) (P.length - 1) = some d := by
  have hpos : 0 < P.length := List.length_pos.mpr hP
  obtain ⟨d, _, hd⟩ := string_at_append_left P R (P.length - 1) (by omega)
  exact ⟨d, hd⟩

theorem string_insert_after (P R : List Char) (c : Char) (str : List Char) :
    string_insert (P ++ c :: R) (P.length + 1) str = some (P ++ c :: (str ++ R)) := by
  have hle : P.length + 1 ≤ (P ++ c :: R).length := by
    simp only [List.length_append, List.length_cons]
    omega
  simp only [string_insert, hle, if_true, Option.some.injEq]
  rw [List.take_append, List.drop_append]
  simp

theorem string_set_boundary (P R : List Char) (c d : Char) :
    (P ++ c :: R).set P.length d = P ++ d :: R := by
  rw [List.set_append_right _ _ (le_refl _)]
  simp

theorem string_find_newline (P mid rest : List Char) (c : Char) (hmid : '\n' ∉ mid) :
    string_find (P ++ c :: (mid ++ '\n' :: rest)) '\n' (P.length + 1) =
      P.length + 1 + mid.length := by
  have hdrop : (P ++ c :: (mid ++ '\n' :: rest)).drop (P.length + 1) = mid ++ '\n' :: rest := by
    rw [List.drop_append]
    simp
  simp only [string_find, hdrop]
  have hin : '\n' ∈ mid ++ '\n' :: rest := by simp
  simp only [hin, if_true]
  rw [List.indexOf_append_of_not_mem hmid, List.indexOf_cons_self]
  omega

theorem string_erase_line (P mid rest : List Char) (c : Char) :
    string_erase (P ++ c :: (mid ++ '\n' :: rest)) P.length (P.length + 1 + mid.length) =
      some (P ++ '\n' :: rest) := by
  have hle : P.length ≤ P.length + 1 + mid.length ∧
      P.length + 1 + mid.length ≤ (P ++ c :: (mid ++ '\n' :: rest)).length := by
    simp only [List.length_append, List.length_cons]
    omega
  simp only [string_erase, hle, and_self, if_true, Option.some.injEq]
  rw [List.take_left]
  have h2 : P.length + 1 + mid.length = P.length + (1 + mid.length) := by omega
  rw [h2, List.drop_append]
  have h3 : c :: (mid ++ '\n' :: rest) = (c :: mid) ++ '\n' :: rest := by simp
  have h4 : 1 + mid.length = (c :: mid).length := by simp; omega
  rw [h3, h4, List.drop_left]
theorem loop_step (o : ViewCFGOptions) (fuel : Nat) (s s1 : LabelState) (r : LabelResult)
    (hne : s.i ≠ s.OutStr.length) (hbody : getCompleteNodeLabel.body o s = some s1)
    (hrest : getCompleteNodeLabel.loop o fuel s1 = r) :
    getCompleteNodeLabel.loop o (fuel + 1) s = r := by
  rw [getCompleteNodeLabel.loop]
  simp only [hne, if_false, hbody]
  exact hrest

theorem body_newline (o : ViewCFGOptions) (P R : List Char) (col ls : Nat)
    (hU : P.length + 1 < UINT_SIZE) :
    getCompleteNodeLabel.body o
        { OutStr := P ++ '\n' :: R, i := P.length, ColNum := col, LastSpace := ls } =
      some { OutStr := P ++ '\\' :: 'l' :: R, i := P.length + 1, ColNum := 0, LastSpace := 0 } := by
  have hat : string_at (P ++ '\\' :: (['l'] ++ R)) P.length = some '\\' :=
    string_at_boundary P (['l'] ++ R) '\\'
  have hsp : ¬ ('\\' = ' ') := by decide
  simp only [getCompleteNodeLabel.body, string_at_boundary, Option.bind_eq_bind,
    Option.some_bind, getCompleteNodeLabel.branch, ↓reduceIte, string_set_boundary,
    string_insert_after, Option.map_some', hat, hsp, Nat.mod_eq_of_lt hU]
  simp

theorem body_keep (o : ViewCFGOptions) (P R : List Char) (c : Char) (col ls : Nat)
    (hc : c ≠ '\n')
    (hcomment : getCompleteNodeLabel.atComment o
      { OutStr := P ++ c :: R, i := P.length, ColNum := col, LastSpace := ls } c = false)
    (hcol : col ≠ o.MaxColumns) (hcolU : col + 1 < UINT_SIZE)
    (hU : P.length + 1 < UINT_SIZE) :
    getCompleteNodeLabel.body o
        { OutStr := P ++ c :: R, i := P.length, ColNum := col, LastSpace := ls } =
      some { OutStr := P ++ c :: R, i := P.length + 1, ColNum := col + 1,
             LastSpace := if c = ' ' then P.length else ls } := by
  simp only [getCompleteNodeLabel.body, string_at_boundary, Option.bind_eq_bind,
    Option.some_bind, getCompleteNodeLabel.branch, hc, hcomment, hcol, ↓reduceIte,
    Option.map_some', Nat.mod_eq_of_lt hU, Nat.mod_eq_of_lt hcolU, Bool.false_eq_true]

theorem body_cut (o : ViewCFGOptions) (P mid rest : List Char) (c : Char) (col ls : Nat)
    (hc : c ≠ '\n') (hP : P ≠ []) (hmid : '\n' ∉ mid)
    (hpolicy : o.LLBehavior = .Truncate)
    (hcut : getCompleteNodeLabel.atComment o
        { OutStr := P ++ c :: (mid ++ '\n' :: rest), i := P.length, ColNum := col,
          LastSpace := ls } c = true ∨ col = o.MaxColumns)
    (hU : P.length + 1 + mid.length < UINT_SIZE) :
    ∃ ls1, getCompleteNodeLabel.body o
        { OutStr := P ++ c :: (mid ++ '\n' :: rest), i := P.length, ColNum := col,
          LastSpace := ls } =
      some { OutStr := P ++ '\n' :: rest, i := P.length, ColNum := col, LastSpace := ls1 } := by
  have hpos : 0 < P.length := List.length_pos.mpr hP
  have h1 : (P.length + 1) % UINT_SIZE = P.length + 1 := Nat.mod_eq_of_lt (by omega)
  have hfind : string_find (P ++ c :: (mid ++ '\n' :: rest)) '\n' (P.length + 1) % UINT_SIZE =
      P.length + 1 + mid.length := by
    rw [string_find_newline P mid rest c hmid]
    exact Nat.mod_eq_of_lt hU
  have hdec : (P.length + UINT_SIZE - 1) % UINT_SIZE = P.length - 1 := by
    have h2 : P.length + UINT_SIZE - 1 = (P.length - 1) + UINT_SIZE := by omega
    rw [h2, Nat.add_mod_right]
    exact Nat.mod_eq_of_lt (by omega)
  have hinc : (P.length - 1 + 1) % UINT_SIZE = P.length := by
    have h2 : P.length - 1 + 1 = P.length := by omega
    rw [h2]
    exact Nat.mod_eq_of_lt (by omega)
  obtain ⟨d, hd⟩ := string_at_last P ('\n' :: rest) hP
  refine ⟨if d = ' ' then P.length - 1 else ls, ?_⟩
  cases hcomment : getCompleteNodeLabel.atComment o
      { OutStr := P ++ c :: (mid ++ '\n' :: rest), i := P.length, ColNum := col,
        LastSpace := ls } c with
  | true =>
    simp only [getCompleteNodeLabel.body, string_at_boundary, Option.bind_eq_bind,
      Option.some_bind, getCompleteNodeLabel.branch, hc, hcomment, ↓reduceIte, h1, hfind,
      string_erase_line, Option.map_some', hdec, hd, hinc]
  | false =>
    have hcol : col = o.MaxColumns := by
      rcases hcut with h | h
      · rw [hcomment] at h
        cases h
      · exact h
    subst hcol
    simp only [getCompleteNodeLabel.body, string_at_boundary, Option.bind_eq_bind,
      Option.some_bind, getCompleteNodeLabel.branch, hc, hcomment, hpolicy, ↓reduceIte,
      h1, hfind, string_erase_line, Option.map_some', hdec, hd, hinc, Bool.false_eq_true]
theorem atComment_eq (o : ViewCFGOptions) (P R : List Char) (c r : Char) (col ls : Nat)
    (hU : P.length + 1 < UINT_SIZE) (hS : (P ++ c :: r :: R).length < SIZE_SIZE) :
    getCompleteNodeLabel.atComment o
        { OutStr := P ++ c :: r :: R, i := P.length, ColNum := col, LastSpace := ls } c =
      (o.RemoveUseListComments && decide (c = '/') && decide (r = '/')) := by
  have hat : string_at (P ++ c :: r :: R) (P.length + 1) = some r := by
    have h := string_at_boundary (P ++ [c]) R r
    simpa using h
  have hlen : P.length ≠ ((P ++ c :: r :: R).length + SIZE_SIZE - 1) % SIZE_SIZE := by
    have h2 : (P ++ c :: r :: R).length + SIZE_SIZE - 1 =
        ((P ++ c :: r :: R).length - 1) + SIZE_SIZE := by
      simp only [List.length_append, List.length_cons]
      omega
    rw [h2, Nat.add_mod_right, Nat.mod_eq_of_lt (by omega)]
    simp only [List.length_append, List.length_cons]
    omega
  simp only [getCompleteNodeLabel.atComment, Nat.mod_eq_of_lt hU, hat, hlen, ne_eq,
    not_false_eq_true, decide_True, Bool.and_true, Option.some.injEq]

theorem atComment_of_ne (o : ViewCFGOptions) (s : LabelState) (c : Char) (hc : c ≠ '/') :
    getCompleteNodeLabel.atComment o s c = false := by
  simp [getCompleteNodeLabel.atComment, hc]

/-- The rest of a line that is cut gives only the marker of its newline. -/
theorem truncatedLabel_skip (MaxColumns : Nat) (strip : Bool) (col : Nat) (rest : List Char) :
    ∀ mid : List Char, '\n' ∉ mid →
      truncatedLabel MaxColumns strip true col (mid ++ '\n' :: rest) =
        '\\' :: 'l' :: truncatedLabel MaxColumns strip false 1 rest
  | [], _ => by simp [truncatedLabel]
  | c :: mid, h => by
    have hc : c ≠ '\n' := by
      intro hc
      apply h
      rw [hc]
      exact List.mem_cons_self _ _
    have hmid : '\n' ∉ mid := fun hin => h (List.mem_cons_of_mem _ hin)
    simp only [List.cons_append, truncatedLabel, hc, ↓reduceIte]
    exact truncatedLabel_skip MaxColumns strip col rest mid hmid

theorem newline_terminated_tail (c : Char) (R : List Char) (hc : c ≠ '\n')
    (hterm : ∀ d, (c :: R).getLast? = some d → d = '\n') :
    (∃ r R2, R = r :: R2) ∧ '\n' ∈ R ∧ ∀ d, R.getLast? = some d → d = '\n' := by
  cases R with
  | nil =>
    exfalso
    exact hc (hterm c rfl)
  | cons r R2 =>
    have hlast : ∀ d, (r :: R2).getLast? = some d → d = '\n' := by
      intro d hd
      apply hterm d
      rw [List.getLast?_cons_cons]
      exact hd
    refine ⟨⟨r, R2, rfl⟩, ?_, hlast⟩
    obtain ⟨d, hd⟩ : ∃ d, (r :: R2).getLast? = some d :=
      ⟨(r :: R2).getLast (by simp), List.getLast?_eq_getLast _ _⟩
    have hdn := hlast d hd
    subst hdn
    obtain ⟨ys, hys⟩ := List.getLast?_eq_some_iff.mp hd
    rw [hys]
    simp

theorem newline_terminated_after (c : Char) (R : List Char)
    (hterm : ∀ d, (c :: R).getLast? = some d → d = '\n') :
    ∀ d, R.getLast? = some d → d = '\n' := by
  intro d hd
  cases R with
  | nil => simp at hd
  | cons r R2 =>
    apply hterm d
    rw [List.getLast?_cons_cons]
    exact hd

theorem newline_terminated_suffix (X Y : List Char) (hY : Y ≠ [])
    (hterm : ∀ d, (X ++ Y).getLast? = some d → d = '\n') :
    ∀ d, Y.getLast? = some d → d = '\n' := by
  intro d hd
  apply hterm d
  rw [List.getLast?_append_of_ne_nil _ hY]
  exact hd
theorem truncatedLabel_newline (MaxColumns : Nat) (strip skipping : Bool) (col : Nat)
    (R : List Char) :
    truncatedLabel MaxColumns strip skipping col ('\n' :: R) =
      '\\' :: 'l' :: truncatedLabel MaxColumns strip false 1 R := by
  rw [truncatedLabel, if_pos rfl]

theorem truncatedLabel_cut (MaxColumns : Nat) (strip : Bool) (col : Nat) (c : Char)
    (R : List Char) (hc : c ≠ '\n')
    (hcut : (strip = true ∧ c = '/' ∧ R.head? = some '/') ∨ col = MaxColumns) :
    truncatedLabel MaxColumns strip false col (c :: R) =
      truncatedLabel MaxColumns strip true col R := by
  rw [truncatedLabel, if_neg hc, if_neg (by decide)]
  by_cases hcm : strip = true ∧ c = '/' ∧ R.head? = some '/'
  · rw [if_pos hcm]
  · have hcol : col = MaxColumns := by
      rcases hcut with h | h
      · exact absurd h hcm
      · exact h
    rw [if_neg hcm, if_pos hcol]

theorem truncatedLabel_keep (MaxColumns : Nat) (strip : Bool) (col : Nat) (c : Char)
    (R : List Char) (hc : c ≠ '\n')
    (hcm : ¬ (strip = true ∧ c = '/' ∧ R.head? = some '/')) (hcol : col ≠ MaxColumns) :
    truncatedLabel MaxColumns strip false col (c :: R) =
      c :: truncatedLabel MaxColumns strip false (col + 1) R := by
  rw [truncatedLabel, if_neg hc, if_neg (by decide), if_neg hcm, if_neg hcol]

/-- The loop under the truncate policy, from any point of the text: it ends, and
the label is the part already passed followed by the truncated rest. -/
theorem truncate_loop_done (MaxColumns : Nat) (strip : Bool) (hmax1 : 1 ≤ MaxColumns)
    (hmaxU : MaxColumns < UINT_SIZE) :
    ∀ (n : Nat) (R P : List Char) (col ls : Nat),
      R.length ≤ n →
      (∀ d, R.getLast? = some d → d = '\n') →
      col ≤ MaxColumns →
      (P = [] → col < MaxColumns ∧ ¬ (strip = true ∧ ['/', '/'] <+: R)) →
      P.length + 2 * R.length < UINT_SIZE →
      ∃ fuel, getCompleteNodeLabel.loop
          { MaxColumns := MaxColumns, LLBehavior := .Truncate, RemoveUseListComments := strip }
          fuel { OutStr := P ++ R, i := P.length, ColNum := col, LastSpace := ls } =
        .done (P ++ truncatedLabel MaxColumns strip false col R)
  | n, [], P, col, ls, _, _, _, _, _ => by
    refine ⟨0, ?_⟩
    rw [getCompleteNodeLabel.loop]
    simp [truncatedLabel]
  | 0, c :: R, P, col, ls, hn, _, _, _, _ => by
    simp at hn
  | n + 1, c :: R, P, col, ls, hn, hterm, hcol, hstart, hU => by
    have hRn : R.length ≤ n := by
      simp only [List.length_cons] at hn
      omega
    have hU2 : P.length + 2 * R.length + 2 < UINT_SIZE := by
      simp only [List.length_cons] at hU
      omega
    have hne : P.length ≠ (P ++ c :: R).length := by
      simp only [List.length_append, List.length_cons]
      omega
    by_cases hc : c = '\n'
    · subst hc
      have hb1 := body_newline
        { MaxColumns := MaxColumns, LLBehavior := .Truncate, RemoveUseListComments := strip }
        P R col ls (by omega)
      have hl : ('l' : Char) ≠ '\n' := by decide
      have hl2 : ('l' : Char) ≠ '/' := by decide
      have hb2 := body_keep
        { MaxColumns := MaxColumns, LLBehavior := .Truncate, RemoveUseListComments := strip }
        (P ++ ['\\']) R 'l' 0 0 hl (atComment_of_ne _ _ _ hl2)
        (by simp only []; omega) (by simp [UINT_SIZE])
        (by simp only [List.length_append, List.length_singleton]; omega)
      obtain ⟨fuel, hfuel⟩ := truncate_loop_done MaxColumns strip hmax1 hmaxU n R
        (P ++ ['\\', 'l']) 1 (if ('l' : Char) = ' ' then (P ++ ['\\']).length else 0)
        hRn (newline_terminated_after _ _ hterm) hmax1 (by simp)
        (by simp only [List.length_append, List.length_cons, List.length_nil]; omega)
      refine ⟨fuel + 1 + 1, ?_⟩
      apply loop_step _ _ _ _ _ hne hb1
      have hne2 : P.length + 1 ≠ (P ++ '\\' :: 'l' :: R).length := by
        simp only [List.length_append, List.length_cons]
        omega
      apply loop_step _ _ _ _ _ hne2
      · have h := hb2
        simp only [List.append_assoc, List.singleton_append, List.length_append,
          List.length_singleton] at h
        exact h
      · have h := hfuel
        simp only [List.append_assoc, List.cons_append, List.nil_append, List.length_append,
          List.length_cons, List.length_nil, List.length_singleton] at h
        rw [truncatedLabel_newline]
        exact h
    · obtain ⟨⟨r, R2, hR⟩, hmem, hterm1⟩ := newline_terminated_tail c R hc hterm
      subst hR
      have hcomment := atComment_eq
        { MaxColumns := MaxColumns, LLBehavior := .Truncate, RemoveUseListComments := strip }
        P R2 c r col ls (by omega)
        (by
          simp only [List.length_cons] at hU
          simp only [List.length_append, List.length_cons, SIZE_SIZE]
          simp only [UINT_SIZE] at hU
          omega)
      simp only [] at hcomment
      by_cases hcut : (strip = true ∧ c = '/' ∧ r = '/') ∨ col = MaxColumns
      · have hP : P ≠ [] := by
          intro hP
          obtain ⟨hlt, hno⟩ := hstart hP
          rcases hcut with ⟨h1, h2, h3⟩ | h
          · apply hno
            refine ⟨h1, ?_⟩
            rw [h2, h3]
            exact ⟨R2, rfl⟩
          · omega
        obtain ⟨mid, rest, hsplit, hmid⟩ := List.eq_append_cons_of_mem hmem
        have hlen : (r :: R2).length = mid.length + 1 + rest.length := by
          rw [hsplit]
          simp only [List.length_append, List.length_cons]
          omega
        have hcut2 : getCompleteNodeLabel.atComment
            { MaxColumns := MaxColumns, LLBehavior := .Truncate,
              RemoveUseListComments := strip }
            { OutStr := P ++ c :: (r :: R2), i := P.length, ColNum := col, LastSpace := ls } c =
              true ∨ col = MaxColumns := by
          rcases hcut with ⟨h1, h2, h3⟩ | h
          · left
            rw [hcomment]
            simp [h1, h2, h3]
          · exact Or.inr h
        rw [hsplit] at hcut2
        obtain ⟨ls1, hb⟩ := body_cut
          { MaxColumns := MaxColumns, LLBehavior := .Truncate, RemoveUseListComments := strip }
          P mid rest c col ls hc hP hmid rfl hcut2
          (by
            simp only [List.length_cons] at hU hlen
            omega)
        obtain ⟨fuel, hfuel⟩ := truncate_loop_done MaxColumns strip hmax1 hmaxU n
          ('\n' :: rest) P col ls1
          (by
            simp only [List.length_cons] at hlen hRn ⊢
            omega)
          (newline_terminated_suffix mid ('\n' :: rest) (by simp)
            (by rw [← hsplit]; exact hterm1))
          hcol (fun h => absurd h hP)
          (by
            simp only [List.length_cons] at hU hlen ⊢
            omega)
        refine ⟨fuel + 1, ?_⟩
        rw [hsplit] at hne ⊢
        apply loop_step _ _ _ _ _ hne hb
        have hspec : truncatedLabel MaxColumns strip false col (c :: (mid ++ '\n' :: rest)) =
            truncatedLabel MaxColumns strip false col ('\n' :: rest) := by
          have hhead : (mid ++ '\n' :: rest).head? = some r := by
            rw [← hsplit]
            rfl
          rw [truncatedLabel_cut MaxColumns strip col c _ hc
            (by
              rcases hcut with ⟨h1, h2, h3⟩ | h
              · exact Or.inl ⟨h1, h2, by rw [hhead, h3]⟩
              · exact Or.inr h),
            truncatedLabel_skip MaxColumns strip col rest mid hmid, truncatedLabel_newline]
        rw [hspec]
        exact hfuel
      · simp only [not_or] at hcut
        obtain ⟨hnc, hncol⟩ := hcut
        have hcomment2 : getCompleteNodeLabel.atComment
            { MaxColumns := MaxColumns, LLBehavior := .Truncate,
              RemoveUseListComments := strip }
            { OutStr := P ++ c :: (r :: R2), i := P.length, ColNum := col, LastSpace := ls } c =
              false := by
          rw [hcomment]
          cases hs : strip with
          | false => simp
          | true =>
            by_cases h2 : c = '/'
            · by_cases h3 : r = '/'
              · exact absurd ⟨hs, h2, h3⟩ hnc
              · simp [h3]
            · simp [h2]
        have hb := body_keep
          { MaxColumns := MaxColumns, LLBehavior := .Truncate, RemoveUseListComments := strip }
          P (r :: R2) c col ls hc hcomment2 hncol (by omega) (by omega)
        obtain ⟨fuel, hfuel⟩ := truncate_loop_done MaxColumns strip hmax1 hmaxU n (r :: R2)
          (P ++ [c]) (col + 1) (if c = ' ' then P.length else ls) hRn hterm1
          (by omega) (by simp)
          (by
            simp only [List.length_cons] at hU ⊢
            simp only [List.length_append, List.length_singleton]
            omega)
        refine ⟨fuel + 1, ?_⟩
        apply loop_step _ _ _ _ _ hne hb
        have h := hfuel
        simp only [List.append_assoc, List.singleton_append, List.length_append,
          List.length_singleton] at h
        have hspec : truncatedLabel MaxColumns strip false col (c :: r :: R2) =
            c :: truncatedLabel MaxColumns strip false (col + 1) (r :: R2) := by
          apply truncatedLabel_keep MaxColumns strip col c _ hc _ hncol
          rintro ⟨h1, h2, h3⟩
          apply hnc
          refine ⟨h1, h2, ?_⟩
          simpa using h3
        rw [hspec]
        exact h
theorem loop_done_mono (o : ViewCFGOptions) (out : List Char) :
    ∀ (fuel : Nat) (s : LabelState), getCompleteNodeLabel.loop o fuel s = .done out →
      ∀ more : Nat, getCompleteNodeLabel.loop o (fuel + more) s = .done out
  | 0, s, h, more => by
    rw [getCompleteNodeLabel.loop] at h
    by_cases hi : s.i = s.OutStr.length
    · rw [getCompleteNodeLabel.loop.eq_def]
      simp only [hi, ↓reduceIte] at h ⊢
      exact h
    · simp [hi] at h
  | fuel + 1, s, h, more => by
    rw [getCompleteNodeLabel.loop] at h
    have hadd : fuel + 1 + more = (fuel + more) + 1 := by omega
    rw [hadd, getCompleteNodeLabel.loop]
    by_cases hi : s.i = s.OutStr.length
    · simp only [hi, if_true] at h ⊢
      exact h
    · simp only [hi, if_false] at h ⊢
      cases hb : getCompleteNodeLabel.body o s with
      | none => simp [hb] at h
      | some s1 =>
        simp only [hb] at h ⊢
        exact loop_done_mono o out fuel s1 h more

theorem truncatedLabel_no_newline (MaxColumns : Nat) (strip : Bool) :
    ∀ (R : List Char) (skipping : Bool) (col : Nat),
      '\n' ∉ truncatedLabel MaxColumns strip skipping col R
  | [], _, _ => by simp [truncatedLabel]
  | c :: R, skipping, col => by
    rw [truncatedLabel]
    have hbs : ('\n' : Char) ≠ '\\' := by decide
    have hl : ('\n' : Char) ≠ 'l' := by decide
    split
    · simp only [List.mem_cons, not_or]
      exact ⟨hbs, hl, truncatedLabel_no_newline MaxColumns strip R false 1⟩
    · rename_i hc
      split
      · exact truncatedLabel_no_newline MaxColumns strip R true col
      · split
        · exact truncatedLabel_no_newline MaxColumns strip R true col
        · split
          · exact truncatedLabel_no_newline MaxColumns strip R true col
          · simp only [List.mem_cons, not_or]
            exact ⟨fun h => hc h.symm,
              truncatedLabel_no_newline MaxColumns strip R false (col + 1)⟩

/-- One line of the text: the label keeps a part at the head of the line, at
most as long as the columns that are left, and goes on after the newline. -/
theorem truncatedLabel_line (MaxColumns : Nat) (strip : Bool) (T : List Char) :
    ∀ (L : List Char) (col : Nat), '\n' ∉ L → col ≤ MaxColumns →
      ∃ K : List Char, K <+: L ∧ K.length ≤ MaxColumns - col ∧
        truncatedLabel MaxColumns strip false col (L ++ '\n' :: T) =
          K ++ '\\' :: 'l' :: truncatedLabel MaxColumns strip false 1 T
  | [], col, _, _ => by
    refine ⟨[], List.prefix_refl _, by simp, ?_⟩
    simp only [List.nil_append]
    exact truncatedLabel_newline MaxColumns strip false col T
  | c :: L, col, hL, hcol => by
    have hc : c ≠ '\n' := by
      intro hc
      apply hL
      rw [hc]
      exact List.mem_cons_self _ _
    have hL1 : '\n' ∉ L := fun hin => hL (List.mem_cons_of_mem _ hin)
    by_cases hcut : (strip = true ∧ c = '/' ∧ (L ++ '\n' :: T).head? = some '/') ∨
        col = MaxColumns
    · refine ⟨[], by simp, by simp, ?_⟩
      rw [List.cons_append, truncatedLabel_cut MaxColumns strip col c _ hc hcut,
        truncatedLabel_skip MaxColumns strip col T L hL1]
      rfl
    · simp only [not_or] at hcut
      obtain ⟨K, hK1, hK2, hK3⟩ := truncatedLabel_line MaxColumns strip T L (col + 1) hL1
        (by omega)
      refine ⟨c :: K, (List.prefix_cons_inj c).mpr hK1, ?_, ?_⟩
      · simp only [List.length_cons]
        omega
      · rw [List.cons_append, truncatedLabel_keep MaxColumns strip col c _ hc hcut.1 hcut.2,
          hK3]
        rfl

theorem truncatedLabel_lines (MaxColumns : Nat) (strip : Bool) (hmax1 : 1 ≤ MaxColumns) :
    ∀ (lines : List (List Char)) (col : Nat), (∀ L ∈ lines, '\n' ∉ L) → col ≤ MaxColumns →
      ∃ kept : List (List Char),
        truncatedLabel MaxColumns strip false col (terminatedLines lines) =
          (kept.map (fun K => K ++ ['\\', 'l'])).flatten ∧
        List.Forall₂ (fun K L => K <+: L ∧ K.length ≤ MaxColumns) kept lines
  | [], col, _, _ => by
    refine ⟨[], ?_, List.Forall₂.nil⟩
    simp [terminatedLines, truncatedLabel]
  | L :: lines, col, hlines, hcol => by
    obtain ⟨K, hK1, hK2, hK3⟩ := truncatedLabel_line MaxColumns strip (terminatedLines lines) L
      col (hlines L (List.mem_cons_self _ _)) hcol
    obtain ⟨kept, hkept1, hkept2⟩ := truncatedLabel_lines MaxColumns strip hmax1 lines 1
      (fun L1 h1 => hlines L1 (List.mem_cons_of_mem _ h1)) hmax1
    refine ⟨K :: kept, ?_, List.Forall₂.cons ⟨hK1, by omega⟩ hkept2⟩
    have hsplit : terminatedLines (L :: lines) = L ++ '\n' :: terminatedLines lines := by
      simp [terminatedLines]
    rw [hsplit, hK3, hkept1]
    simp

theorem terminatedLines_newline_terminated :
    ∀ (lines : List (List Char)) (d : Char),
      (terminatedLines lines).getLast? = some d → d = '\n'
  | [], d, h => by simp [terminatedLines] at h
  | L :: lines, d, h => by
    have hsplit : terminatedLines (L :: lines) = (L ++ ['\n']) ++ terminatedLines lines := by
      simp [terminatedLines]
    rw [hsplit] at h
    by_cases hnil : terminatedLines lines = []
    · rw [hnil, List.append_nil, List.getLast?_append_of_ne_nil _ (by simp)] at h
      simp at h
      exact h.symm
    · rw [List.getLast?_append_of_ne_nil _ hnil] at h
      exact terminatedLines_newline_terminated lines d h

theorem start_terminatedLines (lines : List (List Char)) (hlines : ∀ L ∈ lines, '\n' ∉ L) :
    getCompleteNodeLabel.start (terminatedLines lines) =
      terminatedLines (if lines.head? = some [] then lines.tail else lines) := by
  cases lines with
  | nil => simp [getCompleteNodeLabel.start, terminatedLines, string_at]
  | cons L lines =>
    cases L with
    | nil => simp [getCompleteNodeLabel.start, terminatedLines, string_at]
    | cons c L =>
      have hc : c ≠ '\n' := by
        intro hc
        apply hlines (c :: L) (List.mem_cons_self _ _)
        rw [hc]
        exact List.mem_cons_self _ _
      simp [getCompleteNodeLabel.start, terminatedLines, string_at, hc]
/-- Truncation away from a comment at the head of the text: with the truncate
policy and at least one column, on a text whose lines are each terminated by a
newline, the loop of `getCompleteNodeLabel` ends (for every number of iterations
from some number on the result is the label), the label has no newline
character, and it is, line by line, a part at the head of the line of at most
`MaxColumns` characters followed by the two characters of the marker.  The lines
are those of the text after the newline that `getCompleteNodeLabel` erases at
the head of the text, the column width is an `unsigned`, the text is shorter
than half the range of the `unsigned` index, and with comment removal the text
does not start with a comment. -/
theorem truncate_label_of_terminated_lines (MaxColumns : Nat) (strip : Bool)
    (lines : List (List Char)) (hmax1 : 1 ≤ MaxColumns) (hmaxU : MaxColumns < UINT_SIZE)
    (hlines : ∀ L ∈ lines, '\n' ∉ L)
    (hlen : 2 * (terminatedLines lines).length < UINT_SIZE)
    (hstart : strip = true →
      ¬ ['/', '/'] <+: getCompleteNodeLabel.start (terminatedLines lines)) :
    ∃ (fuel : Nat) (out : List Char) (kept : List (List Char)),
      (∀ more : Nat, getCompleteNodeLabel
        { MaxColumns := MaxColumns, LLBehavior := .Truncate, RemoveUseListComments := strip }
        (fuel + more) (terminatedLines lines) = .done out) ∧
      '\n' ∉ out ∧
      out = (kept.map (fun K => K ++ ['\\', 'l'])).flatten ∧
      List.Forall₂ (fun K L => K <+: L ∧ K.length ≤ MaxColumns) kept
        (if lines.head? = some [] then lines.tail else lines) := by
  have hst := start_terminatedLines lines hlines
  have hlines1 : ∀ L ∈ (if lines.head? = some [] then lines.tail else lines), '\n' ∉ L := by
    intro L hL
    split at hL
    · exact hlines L (List.mem_of_mem_tail hL)
    · exact hlines L hL
  have hshort : (getCompleteNodeLabel.start (terminatedLines lines)).length ≤
      (terminatedLines lines).length := by
    simp only [getCompleteNodeLabel.start]
    split
    · simp
    · exact le_refl _
  obtain ⟨fuel, hfuel⟩ := truncate_loop_done MaxColumns strip hmax1 hmaxU
    (getCompleteNodeLabel.start (terminatedLines lines)).length
    (getCompleteNodeLabel.start (terminatedLines lines)) [] 0 0 (le_refl _)
    (by rw [hst]; exact terminatedLines_newline_terminated _)
    (by omega)
    (fun _ => ⟨by omega, fun h => hstart h.1 h.2⟩)
    (by simp only [List.length_nil]; omega)
  obtain ⟨kept, hkept1, hkept2⟩ := truncatedLabel_lines MaxColumns strip hmax1
    (if lines.head? = some [] then lines.tail else lines) 0 hlines1 (by omega)
  refine ⟨fuel, truncatedLabel MaxColumns strip false 0
    (getCompleteNodeLabel.start (terminatedLines lines)), kept, ?_,
    truncatedLabel_no_newline MaxColumns strip _ false 0, by rw [hst]; exact hkept1, hkept2⟩
  intro more
  have h := loop_done_mono _ _ fuel _ hfuel more
  simpa [getCompleteNodeLabel] using h

/-- Truncation at three columns on the text of the lines `bb0:` and `  br`: the
label is `bb0`, marker, two blanks, marker. -/
theorem truncate_label_example :
    ∃ (fuel : Nat) (out : List Char) (kept : List (List Char)),
      (∀ more : Nat, getCompleteNodeLabel
        { MaxColumns := 3, LLBehavior := .Truncate, RemoveUseListComments := false }
        (fuel + more) (terminatedLines [['b', 'b', '0', ':'], [' ', ' ', 'b', 'r']]) =
          .done out) ∧
      '\n' ∉ out ∧
      out = (kept.map (fun K => K ++ ['\\', 'l'])).flatten ∧
      List.Forall₂ (fun K L => K <+: L ∧ K.length ≤ 3) kept
        [['b', 'b', '0', ':'], [' ', ' ', 'b', 'r']] :=
  truncate_label_of_terminated_lines 3 false [['b', 'b', '0', ':'], [' ', ' ', 'b', 'r']]
    (by decide) (by decide) (by decide) (by decide) (by decide)

/-- With comment removal, a text that starts with a comment: the first iteration
erases the comment at index 0, `--i` wraps the `unsigned` index to its largest
value, and the read `OutStr[i]` that follows is beyond the end of the string, so
the run is not defined, whatever the policy and the column width. -/
theorem comment_at_start_undefined (o : ViewCFGOptions) (fuel : Nat) (Str : List Char)
    (hstrip : o.RemoveUseListComments = true)
    (hstart : ['/', '/'] <+: getCompleteNodeLabel.start Str)
    (hlen : (getCompleteNodeLabel.start Str).length + 1 < UINT_SIZE) :
    getCompleteNodeLabel o (fuel + 1) Str = .undefined := by
  obtain ⟨R, hR⟩ := hstart
  have hbody : getCompleteNodeLabel.body o
      { OutStr := getCompleteNodeLabel.start Str, i := 0, ColNum := 0, LastSpace := 0 } =
        none := by
    rw [← hR] at hlen ⊢
    have hlen2 : R.length + 3 < UINT_SIZE := by simpa using hlen
    have hcom : getCompleteNodeLabel.atComment o
        { OutStr := ['/', '/'] ++ R, i := 0, ColNum := 0, LastSpace := 0 } '/' = true := by
      have hU : (1 : Nat) % UINT_SIZE = 1 := by decide
      have hS : (R.length + 2 + SIZE_SIZE - 1) % SIZE_SIZE ≠ 0 := by
        have : R.length + 2 + SIZE_SIZE - 1 = (R.length + 1) + SIZE_SIZE := by
          simp only [SIZE_SIZE]; omega
        rw [this, Nat.add_mod_right, Nat.mod_eq_of_lt]
        · omega
        · simp only [UINT_SIZE, SIZE_SIZE] at hlen2 ⊢; omega
      simp only [getCompleteNodeLabel.atComment, hstrip, Bool.true_and, decide_True,
        List.length_append, List.length_cons, List.length_nil, Nat.zero_add, hU,
        Bool.and_eq_true, decide_eq_true_eq]
      refine ⟨fun h => hS ?_, ?_⟩
      · rw [Nat.add_comm R.length 2] at *
        simpa [Nat.add_comm] using h.symm
      · simp [string_at]
    have hat : string_at (['/', '/'] ++ R) 0 = some '/' := by simp [string_at]
    simp only [getCompleteNodeLabel.body, hat, Option.some_bind, Option.bind_eq_bind,
      getCompleteNodeLabel.branch, hcom, ↓reduceIte, show ('/' : Char) ≠ '\n' by decide]
    cases herase : string_erase (['/', '/'] ++ R) 0
        (string_find (['/', '/'] ++ R) '\n' ((0 + 1) % UINT_SIZE) % UINT_SIZE) with
    | none => simp
    | some str =>
      have hstr : str.length ≤ R.length + 2 := by
        simp only [string_erase] at herase
        split at herase
        · injection herase with h
          rw [← h]
          simp
        · cases herase
      have hi : (0 + UINT_SIZE - 1) % UINT_SIZE = UINT_SIZE - 1 := by decide
      have hnone : string_at str (UINT_SIZE - 1) = none := by
        simp only [string_at]
        rw [if_neg (by omega), if_neg (by omega)]
      simp [hi, hnone]
  have hne : (0 : Nat) ≠ (getCompleteNodeLabel.start Str).length := by
    rw [← hR]
    simp
  rw [getCompleteNodeLabel, getCompleteNodeLabel.loop]
  simp only [hne, if_false, hbody]

/-- C17 fails on the code by a case its loop misses: with three columns, the
truncate policy and comment removal, on the text of the two lines `// x` and
`bb0:`, each terminated by a newline, the run of `getCompleteNodeLabel` is not
defined, for every number of iterations allowed from one on: the comment is
erased at index 0, `--i` wraps the index to 4294967295, and `OutStr[i]` is read
beyond the end of the string; no label is returned. -/
theorem C17_comment_at_start_undefined (fuel : Nat) :
    terminatedLines [['/', '/', ' ', 'x'], ['b', 'b', '0', ':']] =
        ['/', '/', ' ', 'x', '\n', 'b', 'b', '0', ':', '\n'] ∧
      getCompleteNodeLabel
        { MaxColumns := 3, LLBehavior := .Truncate, RemoveUseListComments := true }
        (fuel + 1) ['/', '/', ' ', 'x', '\n', 'b', 'b', '0', ':', '\n'] = .undefined :=
  ⟨by decide, comment_at_start_undefined _ fuel _ rfl (by decide) (by decide)⟩

end swift
